import Mathlib

/-!
Verification of the basana backtesting exchange core
(`basana/backtesting/exchange.py`) against its natural-language
specification.

Python `Decimal` values are embedded as exact rationals (`ℚ`); dictionaries
from symbol to amount are embedded as association lists with unique keys in
insertion order, mirroring Python dict semantics (updating an existing key
keeps its position, a new key is appended).
-/

namespace Basana

/-- Truncation of a rational toward zero to an integer (for negative
values `⌈x⌉ = -⌊-x⌋`). -/
def ratTruncInt (x : ℚ) : ℤ :=
  if 0 ≤ x then ⌊x⌋ else -⌊-x⌋

/-- Modelled from the spec: `core.helpers.truncate_decimal` (not under `src/`),
"**truncate** base to `base_precision` toward zero": truncation of a decimal
value to `p` fractional digits, toward zero. -/
def truncateDecimal (x : ℚ) (p : ℕ) : ℚ :=
  (ratTruncInt (x * (10 : ℚ) ^ p) : ℚ) / (10 : ℚ) ^ p

/-- Rounding of a rational to an integer, half to even. -/
def ratHalfEvenInt (x : ℚ) : ℤ :=
  if x - ⌊x⌋ < 1 / 2 then ⌊x⌋
  else if 1 / 2 < x - ⌊x⌋ then ⌊x⌋ + 1
  else if ⌊x⌋ % 2 = 0 then ⌊x⌋ else ⌊x⌋ + 1

/-- Modelled from the spec: `core.helpers.round_decimal` (not under `src/`),
"**round-half-even** quote to `quote_precision`": rounding of a decimal value
to `p` fractional digits, half to even (the default `decimal` rounding). -/
def roundDecimalHalfEven (x : ℚ) (p : ℕ) : ℚ :=
  (ratHalfEvenInt (x * (10 : ℚ) ^ p) : ℚ) / (10 : ℚ) ^ p

/-- Rounding of a rational to an integer, away from zero (for nonnegative
values `⌈x⌉ = -⌊-x⌋`). -/
def ratAwayInt (x : ℚ) : ℤ :=
  if 0 ≤ x then -⌊-x⌋ else ⌊x⌋

/-- Modelled from the spec: `core.helpers.round_decimal` with
`rounding=decimal.ROUND_UP` (not under `src/`), "round each fee with
**ROUND_UP**": rounding of a decimal value to `p` fractional digits, away
from zero. -/
def roundDecimalUp (x : ℚ) (p : ℕ) : ℚ :=
  (ratAwayInt (x * (10 : ℚ) ^ p) : ℚ) / (10 : ℚ) ^ p

/-- A Python `Dict[str, Decimal]`: an insertion-ordered association list. -/
abbrev SMap := List (String × ℚ)

/-- First-match lookup, as Python dict `get`. -/
def lookupAmount {α : Type} (m : List (String × α)) (k : String) : Option α :=
  match m with
  | [] => none
  | (k₀, v₀) :: t => if k₀ = k then some v₀ else lookupAmount t k

/-- Python dict assignment `m[k] = v`: replaces the value of an existing key
in place, appends a new key at the end. -/
def setAmount {α : Type} (m : List (String × α)) (k : String) (v : α) :
    List (String × α) :=
  match m with
  | [] => [(k, v)]
  | (k₀, v₀) :: t => if k₀ = k then (k, v) :: t else (k₀, v₀) :: setAmount t k v

/-- Modelled from the spec: `backtesting.helpers.remove_empty_amounts`
(not under `src/`), "Drop zero entries." -/
def removeEmptyAmounts (m : SMap) : SMap :=
  m.filter (fun p => p.2 ≠ 0)

/-- Modelled from the spec: `backtesting.helpers.add_amounts`
(not under `src/`), "`final ← updates + fees` (componentwise)". Keys of the
first map keep their positions; keys only in the second map are appended. -/
def addAmounts (m₁ m₂ : SMap) : SMap :=
  m₁.map (fun p => (p.1, p.2 + ((lookupAmount m₂ p.1).getD 0)))
    ++ m₂.filter (fun p => (lookupAmount m₁ p.1).isNone)

/-- Modelled from the spec: `backtesting.helpers.get_sign` (not under
`src/`): the sign of a decimal. -/
def getSign (x : ℚ) : ℚ :=
  if 0 < x then 1 else if x < 0 then -1 else 0

/-- Modelled from the spec: `backtesting.helpers.get_base_sign_for_operation`
(not under `src/`), "the mapping always contains the base symbol with sign
`+1` for BUY, `−1` for SELL". -/
def getBaseSignForOperation (isBuy : Bool) : ℚ :=
  if isBuy then 1 else -1

/-- `assert_has_value` (exchange.py line 45): the symbol is present, nonzero,
and has the expected sign; `true` when the asserts pass. -/
def assertHasValue (balanceUpdates : SMap) (symbol : String) (sign : ℚ) : Bool :=
  match lookupAmount balanceUpdates symbol with
  | none => false
  | some v => v ≠ 0 ∧ getSign v = sign

/-- `PairInfo`: base and quote precision. -/
structure PairInfo where
  basePrecision : ℕ
  quotePrecision : ℕ
deriving Repr, DecidableEq

-- Basic lemmas about the map operations.

theorem lookupAmount_setAmount_self {α : Type} (m : List (String × α))
    (k : String) (v : α) : lookupAmount (setAmount m k v) k = some v := by
  induction m with
  | nil => simp [setAmount, lookupAmount]
  | cons h t ih =>
    by_cases hk : h.1 = k
    · simp [setAmount, hk, lookupAmount]
    · simp [setAmount, hk, lookupAmount, ih]

theorem lookupAmount_setAmount_other {α : Type} (m : List (String × α))
    (k k₂ : String) (v : α) (hne : k ≠ k₂) :
    lookupAmount (setAmount m k v) k₂ = lookupAmount m k₂ := by
  induction m with
  | nil => simp [setAmount, lookupAmount, hne]
  | cons h t ih =>
    by_cases hk : h.1 = k
    · simp [setAmount, hk, lookupAmount, hne]
    · simp [setAmount, hk, lookupAmount, ih]

/-- The keys of a map, in order. -/
def mapKeys {α : Type} (m : List (String × α)) : List String := m.map Prod.fst

theorem mapKeys_setAmount_mem {α : Type} (m : List (String × α)) (k : String)
    (v : α) (hk : k ∈ mapKeys m) : mapKeys (setAmount m k v) = mapKeys m := by
  induction m with
  | nil => simp [mapKeys] at hk
  | cons h t ih =>
    by_cases hh : h.1 = k
    · simp [setAmount, hh, mapKeys]
    · simp only [mapKeys, List.map_cons] at hk
      rcases List.mem_cons.mp hk with h1 | h2
      · exact absurd h1.symm hh
      · have ht := ih h2
        simp only [mapKeys] at ht ⊢
        simp [setAmount, hh, ht]

theorem lookupAmount_filter {α : Type} (m : List (String × α))
    (q : String × α → Bool) (k : String) (hnd : (mapKeys m).Nodup) :
    lookupAmount (m.filter q) k =
      match lookupAmount m k with
      | none => none
      | some v => if q (k, v) then some v else none := by
  induction m with
  | nil => simp [lookupAmount]
  | cons h t ih =>
    simp only [mapKeys, List.map_cons, List.nodup_cons] at hnd
    by_cases hk : h.1 = k
    · subst hk
      by_cases hq : q h
      · simp [List.filter_cons, hq, lookupAmount]
      · have hnotin : lookupAmount t h.1 = none := by
          clear ih
          induction t with
          | nil => simp [lookupAmount]
          | cons h2 t2 ih2 =>
            simp only [mapKeys, List.map_cons, List.mem_cons, not_or] at hnd
            have : h2.1 ≠ h.1 := fun he => hnd.1.1 he.symm
            simp only [lookupAmount, this, if_neg]
            exact ih2 ⟨hnd.1.2, (List.nodup_cons.mp hnd.2).2⟩
        have hfilter : lookupAmount (t.filter q) h.1 = none := by
          clear ih
          induction t with
          | nil => simp [lookupAmount]
          | cons h2 t2 ih2 =>
            simp only [mapKeys, List.map_cons, List.mem_cons, not_or] at hnd
            have hne : h2.1 ≠ h.1 := fun he => hnd.1.1 he.symm
            by_cases hq2 : q h2
            · simp only [List.filter_cons, hq2, if_pos, lookupAmount, hne, if_neg]
              refine ih2 ⟨hnd.1.2, (List.nodup_cons.mp hnd.2).2⟩ ?_
              simp only [lookupAmount, hne, if_neg] at hnotin
              exact hnotin
            · simp only [List.filter_cons, hq2]
              refine ih2 ⟨hnd.1.2, (List.nodup_cons.mp hnd.2).2⟩ ?_
              simp only [lookupAmount, hne, if_neg] at hnotin
              exact hnotin
        cases h with
        | mk k₀ v₀ =>
          simp only [List.filter_cons, hq, lookupAmount] at hfilter ⊢
          simp only [Bool.false_eq_true, if_false]
          rw [hfilter]
          simp [lookupAmount, hq]
    · by_cases hq : q h
      · simp only [List.filter_cons, hq, if_pos, lookupAmount, hk, if_neg]
        exact ih hnd.2
      · simp only [List.filter_cons, hq, lookupAmount, hk, if_neg]
        simp only [Bool.false_eq_true, if_false]
        exact ih hnd.2

/-- An OHLCV bar (prices and volume as exact decimals). `op` is the open
price (`open` is reserved in Lean). -/
structure Bar where
  op : ℚ
  hi : ℚ
  lo : ℚ
  close : ℚ
  volume : ℚ
deriving Repr, DecidableEq

/-- `Exchange._get_last_price` (exchange.py lines 377-379): the close of the
last cached bar for the pair, `None` when no bar has been seen. -/
def getLastPrice (lastBar : Option Bar) : Option ℚ :=
  match lastBar with
  | some b => some b.close
  | none => none

/-- `Exchange.get_bid_ask` (exchange.py lines 145-156). The Python code
tests `if last_price:`, which is `False` both for `None` and for a zero
price. -/
def getBidAsk (lastBar : Option Bar) (bidAskSpread : ℚ) (pairInfo : PairInfo) :
    Option ℚ × Option ℚ :=
  match getLastPrice lastBar with
  | none => (none, none)
  | some lastPrice =>
    if lastPrice ≠ 0 then
      let halfSpread :=
        truncateDecimal ((lastPrice * bidAskSpread / 100) / 2) pairInfo.quotePrecision
      (some (lastPrice - halfSpread), some (lastPrice + halfSpread))
    else (none, none)

/-- `Exchange._round_balance_updates` (exchange.py lines 252-268): truncate
the base entry toward zero to `base_precision`, round the quote entry half
to even to `quote_precision`, drop zero entries. The Python code tests each
entry with `if amount:`, so absent and zero entries are left untouched. -/
def roundBalanceUpdates (baseSymbol quoteSymbol : String) (pairInfo : PairInfo)
    (balanceUpdates : SMap) : SMap :=
  let ret := balanceUpdates
  let ret :=
    match lookupAmount ret baseSymbol with
    | some v =>
      if v ≠ 0 then setAmount ret baseSymbol (truncateDecimal v pairInfo.basePrecision)
      else ret
    | none => ret
  let ret :=
    match lookupAmount ret quoteSymbol with
    | some v =>
      if v ≠ 0 then setAmount ret quoteSymbol (roundDecimalHalfEven v pairInfo.quotePrecision)
      else ret
    | none => ret
  removeEmptyAmounts ret

/-- The precision table built in `Exchange._round_fees` (exchange.py lines
273-276): a Python dict literal, so when base and quote coincide the quote
precision wins. -/
def feePrecisionFor (baseSymbol quoteSymbol : String) (pairInfo : PairInfo)
    (symbol : String) : Option ℕ :=
  if symbol = quoteSymbol then some pairInfo.quotePrecision
  else if symbol = baseSymbol then some pairInfo.basePrecision
  else none

/-- The value transformation applied to one fee entry by
`Exchange._round_fees` (exchange.py lines 277-282): round a nonzero amount
away from zero when the symbol's precision is known, otherwise leave it. -/
def feeRoundEntry (baseSymbol quoteSymbol : String) (pairInfo : PairInfo)
    (symbol : String) (amount : ℚ) : ℚ :=
  match feePrecisionFor baseSymbol quoteSymbol pairInfo symbol with
  | some precision => if amount ≠ 0 then roundDecimalUp amount precision else amount
  | none => amount

/-- `Exchange._round_fees` (exchange.py lines 270-284): round each nonzero
fee in the base or quote symbol away from zero (ROUND_UP) to the respective
precision; leave fees in other symbols unrounded; drop zero entries. -/
def roundFees (baseSymbol quoteSymbol : String) (pairInfo : PairInfo)
    (fees : SMap) : SMap :=
  let ret := fees.map (fun p =>
    match feePrecisionFor baseSymbol quoteSymbol pairInfo p.1 with
    | some precision => if p.2 ≠ 0 then (p.1, roundDecimalUp p.2 precision) else p
    | none => p)
  removeEmptyAmounts ret

/-- An exchange order request, abstracting `requests.ExchangeOrder` (the
`requests` module is not under `src/`). Modelled from the spec: Market has
no price, Limit a `limit_price`, Stop a `stop_price`, StopLimit both. -/
inductive OrderRequest where
  | market (isBuy : Bool) (amount : ℚ)
  | limit (isBuy : Bool) (amount : ℚ) (limitPrice : ℚ)
  | stop (isBuy : Bool) (amount : ℚ) (stopPrice : ℚ)
  | stopLimit (isBuy : Bool) (amount : ℚ) (stopPrice limitPrice : ℚ)
deriving Repr, DecidableEq

/-- The request operation: `true` for BUY. -/
def OrderRequest.isBuyOp : OrderRequest → Bool
  | .market b _ => b
  | .limit b _ _ => b
  | .stop b _ _ => b
  | .stopLimit b _ _ _ => b

/-- The requested amount. -/
def OrderRequest.amount : OrderRequest → ℚ
  | .market _ a => a
  | .limit _ a _ => a
  | .stop _ a _ => a
  | .stopLimit _ a _ _ => a

/-- Modelled from the spec: `request.get_estimated_fill_price` (the
`requests` module is not under `src/`): "limit orders use `limit_price`;
stop and stop-limit use `stop_price`; market uses none". -/
def OrderRequest.estimatedFillPrice : OrderRequest → Option ℚ
  | .market _ _ => none
  | .limit _ _ lp => some lp
  | .stop _ _ sp => some sp
  | .stopLimit _ _ sp _ => some sp

/-- The fill-price selection of `_estimate_required_balances` (exchange.py
lines 387-389): `request.get_estimated_fill_price()`, falling back to the
last price when the former is falsy (`None` or zero). The caller still
tests the result for truthiness. -/
def estimatedFillPriceWithFallback (request : OrderRequest) (lastPrice : Option ℚ) :
    Option ℚ :=
  match request.estimatedFillPrice with
  | some p => if p ≠ 0 then some p else lastPrice
  | none => lastPrice

/-- The pre-rounding estimated balance updates of
`_estimate_required_balances` (exchange.py lines 383-392): the base
component `amount × base_sign`, plus, when the selected fill price is
truthy, the quote component `amount × price × −base_sign`. -/
def rawEstimatedUpdates (baseSymbol quoteSymbol : String) (request : OrderRequest)
    (lastPrice : Option ℚ) : SMap :=
  let baseSign := getBaseSignForOperation request.isBuyOp
  let updates₀ : SMap := [(baseSymbol, request.amount * baseSign)]
  match estimatedFillPriceWithFallback request lastPrice with
  | some p =>
    if p ≠ 0 then setAmount updates₀ quoteSymbol (request.amount * p * (-baseSign))
    else updates₀
  | none => updates₀

/-- The rounded estimated updates combined with fees
(`_estimate_required_balances`, exchange.py lines 393-401): round the raw
updates, and when both components survived rounding (`len == 2`) add the
rounded fees computed by the fee strategy on an order instance with id
"temporary". -/
def estimatedUpdatesWithFees (baseSymbol quoteSymbol : String) (pairInfo : PairInfo)
    (request : OrderRequest) (lastPrice : Option ℚ)
    (calcFees : String → SMap → SMap) : SMap :=
  let updates₂ := roundBalanceUpdates baseSymbol quoteSymbol pairInfo
    (rawEstimatedUpdates baseSymbol quoteSymbol request lastPrice)
  let feeAmounts :=
    if updates₂.length = 2 then
      roundFees baseSymbol quoteSymbol pairInfo (calcFees "temporary" updates₂)
    else []
  addAmounts updates₂ feeAmounts

/-- `Exchange._estimate_required_balances` (exchange.py lines 381-404).
`calcFees` abstracts `fee_strategy.calculate_fees`, receiving the id of the
order instance the fees are computed on together with the rounded balance
updates. The required balances are the negated strictly negative entries of
the combined map (line 404). -/
def estimateRequiredBalances (baseSymbol quoteSymbol : String) (pairInfo : PairInfo)
    (request : OrderRequest) (lastPrice : Option ℚ)
    (calcFees : String → SMap → SMap) : SMap :=
  ((estimatedUpdatesWithFees baseSymbol quoteSymbol pairInfo request lastPrice
      calcFees).filter (fun p => p.2 < 0)).map (fun p => (p.1, -p.2))

/-- Outcome of `Exchange._check_available_balance` (exchange.py lines
368-375): `ok`, an assertion failure (a required amount that is not
strictly positive), or the first symbol whose available balance is below
the required amount, together with both amounts. -/
inductive CheckBalanceResult where
  | ok
  | assertFailed
  | insufficient (symbol : String) (required : ℚ) (available : ℚ)
deriving Repr, DecidableEq

/-- `Exchange._check_available_balance` (exchange.py lines 368-375):
iterates the required balances in order and raises on the first symbol with
`available < required`, naming the symbol and both amounts. -/
def checkAvailableBalance (available : String → ℚ) : SMap → CheckBalanceResult
  | [] => .ok
  | (symbol, required) :: rest =>
    if ¬ (0 < required) then .assertFailed
    else if available symbol < required then .insufficient symbol required (available symbol)
    else checkAvailableBalance available rest

/-- Modelled from the spec: the order state machine of the `orders` module
(not under `src/`): "state ∈ \x7bOPEN, COMPLETED, CANCELED\x7d". -/
inductive OrderState where
  | OPEN
  | COMPLETED
  | CANCELED
deriving Repr, DecidableEq

/-- Modelled from the spec: the order model of the `orders` module (not
under `src/`): id, operation, amount, accumulated fill, state. -/
structure Order where
  id : String
  isBuy : Bool
  amount : ℚ
  amountFilled : ℚ
  state : OrderState
deriving Repr, DecidableEq

/-- Modelled from the spec: "`is_open ⇔ state = OPEN`". -/
def Order.isOpenOrder (o : Order) : Bool :=
  o.state = OrderState.OPEN

/-- Modelled from the spec: the `AccountBalances` ledger of the
`account_balances` module (not under `src/`): per-symbol `available` funds
and per-order, per-symbol `holds`. -/
structure AccountBalances where
  available : SMap
  holds : List (String × SMap)
deriving Repr, DecidableEq

/-- Modelled from the spec: `get_available(s)`. -/
def getAvailableBalance (b : AccountBalances) (symbol : String) : ℚ :=
  (lookupAmount b.available symbol).getD 0

/-- Modelled from the spec: `get_hold_for_order(order_id, s)`. -/
def getBalanceOnHoldForOrder (b : AccountBalances) (orderId symbol : String) : ℚ :=
  match lookupAmount b.holds orderId with
  | some row => (lookupAmount row symbol).getD 0
  | none => 0

/-- Modelled from the spec: `order_accepted(order, required)`: "for each
`(s, r)` move `r` from `available[s]` to `holds[order_id][s]`". -/
def orderAccepted (b : AccountBalances) (orderId : String) (required : SMap) :
    AccountBalances :=
  required.foldl (fun acc p =>
    let row := (lookupAmount acc.holds orderId).getD []
    { available := setAmount acc.available p.1 (getAvailableBalance acc p.1 - p.2),
      holds := setAmount acc.holds orderId
        (setAmount row p.1 (((lookupAmount row p.1).getD 0) + p.2)) }) b

/-- Modelled from the spec: one component of `order_updated`: "first consume
from `holds[order_id][s]` up to the absolute value of any negative
component; credit any positive component to `available[s]`". -/
def applyBalanceComponent (orderId : String) (b : AccountBalances)
    (p : String × ℚ) : AccountBalances :=
  if p.2 < 0 then
    let h := getBalanceOnHoldForOrder b orderId p.1
    let consumed := min h (-p.2)
    let row := (lookupAmount b.holds orderId).getD []
    { available := setAmount b.available p.1 (getAvailableBalance b p.1 + p.2 + consumed),
      holds := setAmount b.holds orderId (setAmount row p.1 (h - consumed)) }
  else
    { b with available := setAmount b.available p.1 (getAvailableBalance b p.1 + p.2) }

/-- Modelled from the spec: the hold-release step of `order_updated`: "on
transition to a non-open state, the remaining `holds[order_id][*]` is
returned to `available`". -/
def releaseHolds (b : AccountBalances) (orderId : String) : AccountBalances :=
  let row := (lookupAmount b.holds orderId).getD []
  { available := row.foldl
      (fun av p => setAmount av p.1 (((lookupAmount av p.1).getD 0) + p.2)) b.available,
    holds := setAmount b.holds orderId [] }

/-- Modelled from the spec: `order_updated(order, delta)` of the
`account_balances` module (not under `src/`): apply the signed components,
then release the remaining hold when the order is no longer open. -/
def orderUpdated (b : AccountBalances) (orderId : String) (orderIsOpen : Bool)
    (delta : SMap) : AccountBalances :=
  let b₁ := delta.foldl (applyBalanceComponent orderId) b
  if orderIsOpen then b₁ else releaseHolds b₁ orderId

/-- The exchange state relevant to order submission and cancellation:
the balance ledger and the `OrderIndex` (`_orders` insertion-ordered by id,
`_open_orders` as the ids of its open-order list, and the reindex
counter). -/
structure ExchangeState where
  balances : AccountBalances
  orders : List (String × Order)
  openOrders : List String
  reindexCounter : ℕ
deriving Repr, DecidableEq

/-- Modelled from the spec: `request.validate(pair_info)` (the `requests`
module is not under `src/`): "enforces `amount > 0`, precision conformance,
non-negative prices"; variant parameters are positive (`limit_price > 0`,
`stop_price > 0`). -/
def validateRequest (r : OrderRequest) (pairInfo : PairInfo) : Bool :=
  decide (0 < r.amount) &&
  decide (truncateDecimal r.amount pairInfo.basePrecision = r.amount) &&
  (match r with
   | .market _ _ => true
   | .limit _ _ lp => decide (0 < lp)
   | .stop _ _ sp => decide (0 < sp)
   | .stopLimit _ _ sp lp => decide (0 < sp) && decide (0 < lp))

/-- The user-visible outcome of `Exchange.create_order`. -/
inductive CreateOrderResult where
  | created (orderId : String)
  | validationError
  | insufficientBalance (symbol : String) (required : ℚ) (available : ℚ)
  | assertionFailure
deriving Repr, DecidableEq

/-- `Exchange.create_order` (exchange.py lines 158-180): validate, estimate
required balances, check them, then create the order, add it to the index
and hold the required balances. The fresh uuid is passed in as `newId`; the
error branches happen before any mutation, so they return the input state. -/
def createOrder (st : ExchangeState) (baseSymbol quoteSymbol : String)
    (pairInfo : PairInfo) (request : OrderRequest) (lastPrice : Option ℚ)
    (calcFees : String → SMap → SMap) (newId : String) :
    ExchangeState × CreateOrderResult :=
  if ¬ validateRequest request pairInfo then (st, .validationError)
  else
    let required :=
      estimateRequiredBalances baseSymbol quoteSymbol pairInfo request lastPrice calcFees
    match checkAvailableBalance (getAvailableBalance st.balances) required with
    | .assertFailed => (st, .assertionFailure)
    | .insufficient s r a => (st, .insufficientBalance s r a)
    | .ok =>
      if (lookupAmount st.orders newId).isSome then (st, .assertionFailure)
      else
        let order : Order :=
          { id := newId, isBuy := request.isBuyOp, amount := request.amount,
            amountFilled := 0, state := .OPEN }
        ({ balances := orderAccepted st.balances newId required,
           orders := st.orders ++ [(newId, order)],
           openOrders := st.openOrders ++ [newId],
           reindexCounter := st.reindexCounter }, .created newId)

/-- The user-visible outcome of `Exchange.cancel_order`. -/
inductive CancelOrderResult where
  | canceledOk (orderId : String)
  | notFound
  | illegalState (state : OrderState)
deriving Repr, DecidableEq

/-- `Exchange.cancel_order` (exchange.py lines 200-209): not-found when the
id is unknown, illegal-state when the order is not open; otherwise set the
state to CANCELED and call `balances.order_updated(order, \x7b\x7d)` to
release any remaining hold. -/
def cancelOrder (st : ExchangeState) (orderId : String) :
    ExchangeState × CancelOrderResult :=
  match lookupAmount st.orders orderId with
  | none => (st, .notFound)
  | some order =>
    if order.isOpenOrder then
      let canceled := { order with state := OrderState.CANCELED }
      ({ st with
          orders := setAmount st.orders orderId canceled,
          balances := orderUpdated st.balances orderId canceled.isOpenOrder [] },
       .canceledOk orderId)
    else (st, .illegalState order.state)

/-- The externally visible actions `Exchange._process_order` can take on one
order for one bar, in the order they happen. `holdReleased` is the call
`balances.order_updated(order, \x7b\x7d)` made on the not-filled path when
the order left the open state: it applies no balance-update map, it only
releases the remaining hold. -/
inductive MatchEffect where
  | orderNotFilled
  | holdReleased
  | tookLiquidity (amount : ℚ)
  | addedFill (updates fees : SMap)
  | balancesUpdated (finalUpdates : SMap)
deriving Repr, DecidableEq

/-- The not-filled path of `Exchange._process_order` (exchange.py lines
289-294): `order.not_filled()`, then, only if the order is no longer open,
`balances.order_updated(order, \x7b\x7d)`. `stillOpen` says whether the
order remains open after `not_filled()` (Market orders cancel themselves,
other kinds stay open). -/
def notFilledEffects (stillOpen : Bool) : List MatchEffect :=
  .orderNotFilled :: (if stillOpen then [] else [.holdReleased])

/-- `Exchange._process_order` (exchange.py lines 286-349), as the list of
effects it performs. `balanceUpdates` is the result of
`order.get_balance_updates(bar, liquidity_strategy)`; `calcFees` abstracts
`fee_strategy.calculate_fees`; `available` and `holdForOrder` give the
ledger values read by the affordability check; `stillOpen` is the order's
open state after a `not_filled()` call. `none` models an assertion
failure (`assert_has_value` on the raw updates). -/
def processOrder (baseSymbol quoteSymbol : String) (pairInfo : PairInfo)
    (isBuy : Bool) (balanceUpdates : SMap) (calcFees : SMap → SMap)
    (available holdForOrder : String → ℚ) (stillOpen : Bool) :
    Option (List MatchEffect) :=
  if balanceUpdates = [] then some (notFilledEffects stillOpen)
  else
    let baseSign := getBaseSignForOperation isBuy
    if ¬ (assertHasValue balanceUpdates baseSymbol baseSign = true ∧
          assertHasValue balanceUpdates quoteSymbol (-baseSign) = true) then none
    else
      let updates := roundBalanceUpdates baseSymbol quoteSymbol pairInfo balanceUpdates
      if lookupAmount updates baseSymbol = none ∨
         lookupAmount updates quoteSymbol = none then
        some (notFilledEffects stillOpen)
      else
        let feeAmounts := roundFees baseSymbol quoteSymbol pairInfo (calcFees updates)
        let finalUpdates := removeEmptyAmounts (addAmounts updates feeAmounts)
        let short := finalUpdates.any
          (fun p => decide (available p.1 + holdForOrder p.1 + p.2 < 0))
        if short then some (notFilledEffects stillOpen)
        else some [
          .tookLiquidity |(lookupAmount updates baseSymbol).getD 0|,
          .addedFill updates feeAmounts,
          .balancesUpdated finalUpdates]

/-- The liquidity-strategy cache and factory of the Exchange, with strategy
instances identified by the order in which the factory created them:
`strategies` is `_liquidity_strategies` (keyed by pair) and `created`
counts factory calls, so distinct factory calls yield distinct instance
ids. -/
structure LiquidityCache where
  strategies : List (String × ℕ)
  created : ℕ
deriving Repr, DecidableEq

/-- The strategy acquisition of `Exchange._process_orders` (exchange.py
lines 352-353): look the pair up in `_liquidity_strategies` and construct a
fresh instance from the factory when absent. The Python code never stores
the fresh instance back into the dict, and nothing else ever writes to
`_liquidity_strategies`, so the cache is returned unchanged on a miss. -/
def acquireLiquidityStrategy (cache : LiquidityCache) (pairKey : String) :
    LiquidityCache × ℕ :=
  match lookupAmount cache.strategies pairKey with
  | some instanceId => (cache, instanceId)
  | none => ({ cache with created := cache.created + 1 }, cache.created)

/-- The liquidity-strategy cache of a freshly constructed Exchange
(exchange.py line 122): empty. -/
def initialLiquidityCache : LiquidityCache :=
  { strategies := [], created := 0 }

/-- One inner step of `OrderIndex.get_open_orders` (exchange.py lines
75-79) over the ids in `_open_orders`. `store` gives each order's current
`is_open`; `process` is the consumer's effect while suspended at `yield`
(in the matching loop, `_process_order` on the yielded order); `newOpen`
is `new_open_orders`. Returns the yielded ids, the final
`new_open_orders`, and the final store. -/
def genLoop (process : String → (String → Bool) → (String → Bool)) :
    List String → (String → Bool) → Option (List String) →
    List String × Option (List String) × (String → Bool)
  | [], store, newOpen => ([], newOpen, store)
  | o :: rest, store, newOpen =>
    if store o then
      let store₂ := process o store
      let newOpen₂ :=
        match newOpen with
        | some acc => if store₂ o then some (acc ++ [o]) else some acc
        | none => none
      let r := genLoop process rest store₂ newOpen₂
      (o :: r.1, r.2.1, r.2.2)
    else
      genLoop process rest store newOpen

/-- The `OrderIndex` iteration state: the ids in `_open_orders` and the
reindex counter (`_reindex_every` is 50, exchange.py line 56). -/
structure OrderIndexState where
  openOrders : List String
  reindexCounter : ℕ
deriving Repr, DecidableEq

/-- One full iteration of `OrderIndex.get_open_orders` (exchange.py lines
69-82): bump the counter, rebuild `_open_orders` on every 50th iteration,
otherwise keep the list as is. Returns the new index state, the final
store, and the yielded ids in order. -/
def runGetOpenOrders (idx : OrderIndexState) (store : String → Bool)
    (process : String → (String → Bool) → (String → Bool)) :
    OrderIndexState × (String → Bool) × List String :=
  let counter := idx.reindexCounter + 1
  let init : Option (List String) := if counter % 50 = 0 then some [] else none
  let r := genLoop process idx.openOrders store init
  ({ openOrders := match r.2.1 with | some rebuilt => rebuilt | none => idx.openOrders,
     reindexCounter := counter }, r.2.2, r.1)

/-- Relational specification of one `get_open_orders` iteration, written
independently of `genLoop`: `YieldSpec process pending store ys ks` holds
when, walking `pending` left to right while the consumer transforms the
store at each yield, `ys` are exactly the orders that were open at the
moment they were yielded (closed ones are skipped), and `ks` are the
yielded orders still open immediately after their own processing. -/
inductive YieldSpec (process : String → (String → Bool) → (String → Bool)) :
    List String → (String → Bool) → List String → List String → Prop
  | nil (store : String → Bool) : YieldSpec process [] store [] []
  | skip (o : String) (rest : List String) (store : String → Bool)
      (ys ks : List String) (hclosed : store o = false)
      (htail : YieldSpec process rest store ys ks) :
      YieldSpec process (o :: rest) store ys ks
  | yieldKeep (o : String) (rest : List String) (store : String → Bool)
      (ys ks : List String) (hopen : store o = true)
      (hstill : process o store o = true)
      (htail : YieldSpec process rest (process o store) ys ks) :
      YieldSpec process (o :: rest) store (o :: ys) (o :: ks)
  | yieldDrop (o : String) (rest : List String) (store : String → Bool)
      (ys ks : List String) (hopen : store o = true)
      (hstill : process o store o = false)
      (htail : YieldSpec process rest (process o store) ys ks) :
      YieldSpec process (o :: rest) store (o :: ys) ks

/-- The externally ordered steps taken while handling one bar event. -/
inductive BarStep where
  | lastBarUpdated (pairKey : String)
  | liquidityOnBar (pairKey : String) (strategyInstance : ℕ)
  | orderProcessed (orderId : String)
  | eventForwarded (pairKey : String)
deriving Repr, DecidableEq

/-- The exchange state touched by `Exchange._on_bar_event`: the last-bar
cache, the order index with each order's current open flag (`store`), the
liquidity-strategy cache, the pairs that have a subscriber event source
(`_bar_event_source` keys), and the events pushed to those sources. -/
structure OnBarState where
  lastBars : List (String × Bar)
  index : OrderIndexState
  store : String → Bool
  liquidity : LiquidityCache
  subscribedPairs : List String
  pushedEvents : List (String × Bar)

/-- `Exchange._process_orders` (exchange.py lines 351-356): acquire the
liquidity strategy for the bar's pair, call `on_bar`, then run
`_process_order` on every open order of that pair yielded by
`get_open_orders` (the `filter` in the loop pulls non-matching yields
through untouched). `pairOf` maps an order id to its pair; `process` is
the store effect of `_process_order` on one order. Returns the new state
and one `orderProcessed` step per processed order, in processing order. -/
def processOrdersTrace (st : OnBarState) (pairKey : String)
    (pairOf : String → String)
    (process : String → (String → Bool) → (String → Bool)) :
    OnBarState × List BarStep :=
  let acq := acquireLiquidityStrategy st.liquidity pairKey
  let step : String → (String → Bool) → (String → Bool) :=
    fun o s => if pairOf o = pairKey then process o s else s
  let r := runGetOpenOrders st.index st.store step
  ({ st with index := r.1, store := r.2.1, liquidity := acq.1 },
   .liquidityOnBar pairKey acq.2 ::
     (r.2.2.filter (fun o => pairOf o = pairKey)).map .orderProcessed)

/-- `Exchange._on_bar_event` (exchange.py lines 358-366): cache the bar as
the pair's last bar, run `_process_orders`, then push the event to the
pair's subscriber event source when one exists. Returns the final state
and the ordered steps taken. -/
def onBarEvent (st : OnBarState) (pairKey : String) (b : Bar)
    (pairOf : String → String)
    (process : String → (String → Bool) → (String → Bool)) :
    OnBarState × List BarStep :=
  let st₁ : OnBarState := { st with lastBars := setAmount st.lastBars pairKey b }
  let pr := processOrdersTrace st₁ pairKey pairOf process
  let forwarded := st.subscribedPairs.contains pairKey
  let st₃ : OnBarState :=
    if forwarded then { pr.1 with pushedEvents := pr.1.pushedEvents ++ [(pairKey, b)] }
    else pr.1
  (st₃, .lastBarUpdated pairKey :: pr.2 ++
    (if forwarded then [.eventForwarded pairKey] else []))

/-- The fee strategy used by witnesses: the reference `NoFee`, which
returns an empty fee map. -/
def noFeeStrategy : String → SMap → SMap := fun _ _ => []

/-- A concrete open order used by witnesses. -/
def ord1 : Order :=
  { id := "o1", isBuy := true, amount := 1, amountFilled := 0, state := .OPEN }

/-- A concrete exchange state used by witnesses: one open order `o1` with a
50 USDT hold. -/
def exSt1 : ExchangeState :=
  { balances := { available := [("USDT", 100)], holds := [("o1", [("USDT", 50)])] },
    orders := [("o1", ord1)], openOrders := ["o1"], reindexCounter := 0 }

/-- A concrete exchange state used by witnesses: 10 USDT available and no
orders. -/
def exSt2 : ExchangeState :=
  { balances := { available := [("USDT", 10)], holds := [] },
    orders := [], openOrders := [], reindexCounter := 0 }

/-- A concrete bar whose close is zero, used by the C8 counterexample and
the C10 witness. -/
def zeroCloseBar : Bar :=
  { op := 1, hi := 1, lo := 0, close := 0, volume := 1 }

/-- A concrete ordinary bar used by witnesses. -/
def bar100 : Bar :=
  { op := 100, hi := 110, lo := 90, close := 100, volume := 1000 }

/-- Pair info used by rounding witnesses: whole base units, two quote
decimals. -/
def piW : PairInfo := { basePrecision := 0, quotePrecision := 2 }

/-- A concrete balance-updates map used by the C3 witness. -/
def mW : SMap := [("BTC", 5 / 2), ("USDT", -21 / 8)]

/-- A concrete fee map used by the C3 witness: a BTC fee plus a fee in a
symbol that is neither base nor quote. -/
def feesW : SMap := [("BTC", 1 / 1000), ("XYZ", 7 / 1000)]

/-- A concrete balance-updates map used by the C1 witness. -/
def mC1 : SMap := [("BTC", 1), ("USDT", -100)]

/-- Available balances used by the C1 witness. -/
def availC1 : String → ℚ := fun s => if s = "USDT" then 1000 else 0

/-- Scarce available balances used by the C1 witness shortage branch. -/
def availShortC1 : String → ℚ := fun s => if s = "USDT" then 50 else 0

/-- The zero hold function used by witnesses. -/
def holdZero : String → ℚ := fun _ => 0

/-- An order index used by the C9 witness: three orders, counter at 48 so
the next iteration (the 49th) does not rebuild the list. -/
def idxW : OrderIndexState := { openOrders := ["a", "b", "c"], reindexCounter := 48 }

/-- A store used by the C9 witness: order "b" is already closed. -/
def storeW : String → Bool := fun s => s != "b"

/-- A consumer effect used by the C9 witness: processing order "a" closes
it; other orders are left as they are. -/
def processW : String → (String → Bool) → (String → Bool) :=
  fun o st => if o = "a" then (fun x => if x = "a" then false else st x) else st

-- ======================================================================
-- Theorems
-- ======================================================================

section Theorems

-- The core rational operations are irreducible by default, which blocks
-- elaborator-side evaluation of concrete instances; proofs here evaluate
-- them through their definitions.
attribute [local semireducible] Rat.mul Rat.add Rat.sub Rat.inv

/-- C2. The claim reads: the liquidity strategy used by the matching loop
is lazily constructed from the factory at most once per pair and the same
instance is reused for every subsequent bar of that pair. The code
(exchange.py lines 351-356) never stores the fresh strategy back into
`_liquidity_strategies`, and nothing else writes that dict, so starting
from the empty cache of `__init__` (line 122) the first two bars of the
same pair each construct a fresh instance: after the first acquisition the
cache is still empty and the second acquisition returns a different
instance. -/
theorem C2_liquidity_strategy_not_cached :
    (acquireLiquidityStrategy initialLiquidityCache "BTC/USDT").1.strategies = [] ∧
    (acquireLiquidityStrategy initialLiquidityCache "BTC/USDT").2 ≠
      (acquireLiquidityStrategy
        (acquireLiquidityStrategy initialLiquidityCache "BTC/USDT").1 "BTC/USDT").2 := by
  constructor
  · rfl
  · decide

/-- C8 counterexample. The claim reads: when a bar has been seen,
`get_bid_ask` returns `(last_close − half_spread, last_close + half_spread)`.
For a last bar whose close is `0` the code returns `(None, None)` instead
(the `if last_price:` truthiness test), so the claim fails at this input:
the claimed value would be `(some 0, some 0)`. -/
theorem C8_get_bid_ask_counterexample :
    getBidAsk (some zeroCloseBar) (1 / 2) { basePrecision := 8, quotePrecision := 2 } ≠
      (some (zeroCloseBar.close -
         truncateDecimal ((zeroCloseBar.close * (1 / 2) / 100) / 2) 2),
       some (zeroCloseBar.close +
         truncateDecimal ((zeroCloseBar.close * (1 / 2) / 100) / 2) 2)) := by
  decide

/-- C8 amended. For every pair: if no bar has been seen, `get_bid_ask`
returns `(None, None)`; otherwise, when the last close is nonzero, it
returns `(last_close − half_spread, last_close + half_spread)` with
`half_spread = truncate(last_close × spread_pct / 100 / 2, quote_precision)`,
where `spread_pct` is the configured `bid_ask_spread` and `quote_precision`
comes from the pair's `PairInfo`. -/
theorem C8_get_bid_ask (lastBar : Option Bar) (spread : ℚ) (pairInfo : PairInfo) :
    getBidAsk none spread pairInfo = (none, none) ∧
    (∀ b : Bar, lastBar = some b → b.close ≠ 0 →
      getBidAsk lastBar spread pairInfo =
        (some (b.close - truncateDecimal ((b.close * spread / 100) / 2) pairInfo.quotePrecision),
         some (b.close + truncateDecimal ((b.close * spread / 100) / 2) pairInfo.quotePrecision))) := by
  constructor
  · rfl
  · intro b hb hc
    subst hb
    simp [getBidAsk, getLastPrice, hc]

/-- C8 witness: the amended theorem applied at a concrete bar with close
100, spread 0.5 and quote precision 2. -/
theorem C8_get_bid_ask_witness :
    getBidAsk (some bar100) (1 / 2) { basePrecision := 8, quotePrecision := 2 } =
      (some (bar100.close - truncateDecimal ((bar100.close * (1 / 2) / 100) / 2) 2),
       some (bar100.close + truncateDecimal ((bar100.close * (1 / 2) / 100) / 2) 2)) :=
  (C8_get_bid_ask (some bar100) (1 / 2)
    { basePrecision := 8, quotePrecision := 2 }).2 bar100 rfl (by decide)

/-- C10. For a pair whose most recent bar closes at zero, `get_bid_ask`
behaves exactly as if no bar had been seen (the `if last_price:` truthiness
test, exchange.py line 148), and required-balance estimation treats the
zero last close as no estimable price (the truthiness tests at lines
388-390): estimating against a last price of zero gives the same result as
estimating with no last price at all. -/
theorem C10_zero_close_truthiness (b : Bar) (spread : ℚ) (pairInfo : PairInfo)
    (baseSymbol quoteSymbol : String) (request : OrderRequest)
    (calcFees : String → SMap → SMap) (hclose : b.close = 0) :
    getBidAsk (some b) spread pairInfo = getBidAsk none spread pairInfo ∧
    estimateRequiredBalances baseSymbol quoteSymbol pairInfo request
        (getLastPrice (some b)) calcFees =
      estimateRequiredBalances baseSymbol quoteSymbol pairInfo request none calcFees := by
  constructor
  · simp [getBidAsk, getLastPrice, hclose]
  · simp only [getLastPrice, hclose]
    have hraw : rawEstimatedUpdates baseSymbol quoteSymbol request (some 0) =
        rawEstimatedUpdates baseSymbol quoteSymbol request none := by
      unfold rawEstimatedUpdates estimatedFillPriceWithFallback
      cases hr : request.estimatedFillPrice with
      | none => simp
      | some p =>
        by_cases hp : p = 0
        · simp [hp]
        · simp [hp]
    simp only [estimateRequiredBalances, estimatedUpdatesWithFees, hraw]

/-- C10 witness: the theorem applied at the concrete zero-close bar, a
market BUY request, and the no-fee strategy. -/
theorem C10_zero_close_truthiness_witness :
    getBidAsk (some zeroCloseBar) (1 / 2) { basePrecision := 8, quotePrecision := 2 } =
      getBidAsk none (1 / 2) { basePrecision := 8, quotePrecision := 2 } ∧
    estimateRequiredBalances "BTC" "USDT" { basePrecision := 8, quotePrecision := 2 }
        (.market true 1) (getLastPrice (some zeroCloseBar)) noFeeStrategy =
      estimateRequiredBalances "BTC" "USDT" { basePrecision := 8, quotePrecision := 2 }
        (.market true 1) none noFeeStrategy :=
  C10_zero_close_truthiness zeroCloseBar (1 / 2)
    { basePrecision := 8, quotePrecision := 2 } "BTC" "USDT"
    (.market true 1) noFeeStrategy rfl

/-- C7. `cancel_order` (exchange.py lines 200-209): a not-found error when
the id is unknown; an illegal-state error when the order is not open; on
success the order state becomes CANCELED and the balances are updated via
`order_updated(order, \x7b\x7d)`, which zeroes the order's hold row; and a
second cancel of the same id then always raises the illegal-state error. -/
theorem C7_cancel_order (st : ExchangeState) (orderId : String) :
    (lookupAmount st.orders orderId = none →
      cancelOrder st orderId = (st, .notFound)) ∧
    (∀ o : Order, lookupAmount st.orders orderId = some o → o.isOpenOrder = false →
      cancelOrder st orderId = (st, .illegalState o.state)) ∧
    (∀ o : Order, lookupAmount st.orders orderId = some o → o.isOpenOrder = true →
      (cancelOrder st orderId).2 = .canceledOk orderId ∧
      lookupAmount (cancelOrder st orderId).1.orders orderId =
        some { o with state := OrderState.CANCELED } ∧
      (cancelOrder st orderId).1.balances =
        orderUpdated st.balances orderId false [] ∧
      (∀ s, getBalanceOnHoldForOrder (cancelOrder st orderId).1.balances orderId s = 0) ∧
      cancelOrder (cancelOrder st orderId).1 orderId =
        ((cancelOrder st orderId).1, .illegalState OrderState.CANCELED)) := by
  refine ⟨?_, ?_, ?_⟩
  · intro h
    simp [cancelOrder, h]
  · intro o ho hno
    simp [cancelOrder, ho, hno]
  · intro o ho hopen
    have hcanceled : ({ o with state := OrderState.CANCELED } : Order).isOpenOrder = false := by
      simp [Order.isOpenOrder]
    refine ⟨?_, ?_, ?_, ?_, ?_⟩
    · simp [cancelOrder, ho, hopen]
    · simp only [cancelOrder, ho, hopen, if_pos, hcanceled]
      exact lookupAmount_setAmount_self _ _ _
    · simp [cancelOrder, ho, hopen, hcanceled]
    · intro s
      simp only [cancelOrder, ho, hopen, if_pos, hcanceled]
      simp only [orderUpdated, List.foldl_nil, releaseHolds, Bool.false_eq_true, if_false]
      simp [getBalanceOnHoldForOrder, lookupAmount_setAmount_self, lookupAmount]
    · have hlook : lookupAmount (cancelOrder st orderId).1.orders orderId =
          some { o with state := OrderState.CANCELED } := by
        simp only [cancelOrder, ho, hopen, if_pos, hcanceled]
        exact lookupAmount_setAmount_self _ _ _
      generalize hst : (cancelOrder st orderId).1 = st₂ at hlook ⊢
      simp [cancelOrder, hlook, Order.isOpenOrder]

/-- C7 witness: the success branch and the subsequent illegal-state branch
of the theorem, applied to a concrete state with one open order `o1`. -/
theorem C7_cancel_order_witness :
    (cancelOrder exSt1 "o1").2 = .canceledOk "o1" ∧
    lookupAmount (cancelOrder exSt1 "o1").1.orders "o1" =
      some { ord1 with state := OrderState.CANCELED } ∧
    (cancelOrder exSt1 "o1").1.balances =
      orderUpdated exSt1.balances "o1" false [] ∧
    (∀ s, getBalanceOnHoldForOrder (cancelOrder exSt1 "o1").1.balances "o1" s = 0) ∧
    cancelOrder (cancelOrder exSt1 "o1").1 "o1" =
      ((cancelOrder exSt1 "o1").1, .illegalState OrderState.CANCELED) :=
  (C7_cancel_order exSt1 "o1").2.2 ord1 rfl rfl

theorem estimateRequiredBalances_pos (baseSymbol quoteSymbol : String)
    (pairInfo : PairInfo) (request : OrderRequest) (lastPrice : Option ℚ)
    (calcFees : String → SMap → SMap) :
    ∀ p ∈ estimateRequiredBalances baseSymbol quoteSymbol pairInfo request
      lastPrice calcFees, 0 < p.2 := by
  intro p hp
  simp only [estimateRequiredBalances] at hp
  rcases List.mem_map.mp hp with ⟨q, hq, rfl⟩
  have hneg := (List.mem_filter.mp hq).2
  simp only [decide_eq_true_eq] at hneg
  simpa using hneg

theorem checkAvailableBalance_insufficient (avail : String → ℚ) (m : SMap)
    (hpos : ∀ p ∈ m, 0 < p.2) (hshort : ∃ p ∈ m, avail p.1 < p.2) :
    ∃ s r, (s, r) ∈ m ∧ avail s < r ∧
      checkAvailableBalance avail m = .insufficient s r (avail s) := by
  induction m with
  | nil => simp at hshort
  | cons h t ih =>
    cases h with
    | mk sym req =>
      have hp : (0 : ℚ) < req := hpos (sym, req) (List.mem_cons_self _ _)
      by_cases hs : avail sym < req
      · refine ⟨sym, req, List.mem_cons_self _ _, hs, ?_⟩
        simp [checkAvailableBalance, not_lt.mpr (le_of_lt hp), hp, hs]
      · obtain ⟨p, hpm, hps⟩ := hshort
        have hpt : p ∈ t := by
          rcases List.mem_cons.mp hpm with h1 | h2
          · rw [h1] at hps
            exact absurd hps hs
          · exact h2
        obtain ⟨s, r, hmem, hlt, heq⟩ :=
          ih (fun q hq => hpos q (List.mem_cons_of_mem _ hq)) ⟨p, hpt, hps⟩
        refine ⟨s, r, List.mem_cons_of_mem _ hmem, hlt, ?_⟩
        simp [checkAvailableBalance, hp, hs, heq]

/-- C6. `create_order` (exchange.py lines 158-180): when the request passes
validation and some required symbol has available balance strictly below
the required amount, the result is the insufficient-balance error naming
the (first such) symbol, the required amount and the available amount; and
on any user-visible error (validation or insufficient balance) the exchange
state is returned unchanged: no order is added to the index and no balance
is held or modified. -/
theorem C6_create_order_errors (st : ExchangeState) (baseSymbol quoteSymbol : String)
    (pairInfo : PairInfo) (request : OrderRequest) (lastPrice : Option ℚ)
    (calcFees : String → SMap → SMap) (newId : String) :
    (validateRequest request pairInfo = true →
      (∃ p ∈ estimateRequiredBalances baseSymbol quoteSymbol pairInfo request
          lastPrice calcFees, getAvailableBalance st.balances p.1 < p.2) →
      ∃ s r, (s, r) ∈ estimateRequiredBalances baseSymbol quoteSymbol pairInfo
          request lastPrice calcFees ∧
        getAvailableBalance st.balances s < r ∧
        createOrder st baseSymbol quoteSymbol pairInfo request lastPrice calcFees newId =
          (st, .insufficientBalance s r (getAvailableBalance st.balances s))) ∧
    ((createOrder st baseSymbol quoteSymbol pairInfo request lastPrice calcFees newId).2 =
        .validationError →
      (createOrder st baseSymbol quoteSymbol pairInfo request lastPrice calcFees newId).1 = st) ∧
    (∀ s r a,
      (createOrder st baseSymbol quoteSymbol pairInfo request lastPrice calcFees newId).2 =
        .insufficientBalance s r a →
      (createOrder st baseSymbol quoteSymbol pairInfo request lastPrice calcFees newId).1 = st) := by
  refine ⟨?_, ?_, ?_⟩
  · intro hv hshort
    obtain ⟨s, r, hmem, hlt, heq⟩ :=
      checkAvailableBalance_insufficient (getAvailableBalance st.balances)
        (estimateRequiredBalances baseSymbol quoteSymbol pairInfo request lastPrice calcFees)
        (estimateRequiredBalances_pos baseSymbol quoteSymbol pairInfo request lastPrice calcFees)
        hshort
    exact ⟨s, r, hmem, hlt, by simp [createOrder, hv, heq]⟩
  · by_cases hv : validateRequest request pairInfo = true
    · cases hc : checkAvailableBalance (getAvailableBalance st.balances)
        (estimateRequiredBalances baseSymbol quoteSymbol pairInfo request lastPrice calcFees) with
      | ok =>
        by_cases hdup : (lookupAmount st.orders newId).isSome
        · simp [createOrder, hv, hc, hdup]
        · simp [createOrder, hv, hc, hdup]
      | assertFailed => simp [createOrder, hv, hc]
      | insufficient s r a => simp [createOrder, hv, hc]
    · simp [createOrder, hv]
  · intro s r a
    by_cases hv : validateRequest request pairInfo = true
    · cases hc : checkAvailableBalance (getAvailableBalance st.balances)
        (estimateRequiredBalances baseSymbol quoteSymbol pairInfo request lastPrice calcFees) with
      | ok =>
        by_cases hdup : (lookupAmount st.orders newId).isSome
        · simp [createOrder, hv, hc, hdup]
        · simp [createOrder, hv, hc, hdup]
      | assertFailed => simp [createOrder, hv, hc]
      | insufficient s₂ r₂ a₂ => simp [createOrder, hv, hc]
    · simp [createOrder, hv]

/-- C6 witness: a market BUY for 1 BTC against 10 available USDT with a
last price of 100 raises the insufficient-balance error naming USDT, the
required 100 and the available 10, leaving the state unchanged. -/
theorem C6_create_order_errors_witness :
    ∃ s r, (s, r) ∈ estimateRequiredBalances "BTC" "USDT"
        { basePrecision := 8, quotePrecision := 2 } (.market true 1) (some 100)
        noFeeStrategy ∧
      getAvailableBalance exSt2.balances s < r ∧
      createOrder exSt2 "BTC" "USDT" { basePrecision := 8, quotePrecision := 2 }
          (.market true 1) (some 100) noFeeStrategy "id1" =
        (exSt2, .insufficientBalance s r (getAvailableBalance exSt2.balances s)) :=
  (C6_create_order_errors exSt2 "BTC" "USDT" { basePrecision := 8, quotePrecision := 2 }
    (.market true 1) (some 100) noFeeStrategy "id1").1 (by decide) (by decide)

theorem lookupAmount_eq_none_iff {α : Type} (m : List (String × α)) (k : String) :
    lookupAmount m k = none ↔ k ∉ mapKeys m := by
  induction m with
  | nil => simp [lookupAmount, mapKeys]
  | cons h t ih =>
    by_cases hk : h.1 = k
    · subst hk
      simp [lookupAmount, mapKeys]
    · have hstep : lookupAmount (h :: t) k = lookupAmount t k := by
        simp [lookupAmount, hk]
      rw [hstep, ih]
      simp only [mapKeys, List.map_cons, List.mem_cons, not_or]
      constructor
      · intro hn
        exact ⟨fun he => hk he.symm, hn⟩
      · exact fun hn => hn.2

theorem mapKeys_setAmount_notMem {α : Type} (m : List (String × α)) (k : String)
    (v : α) (hk : k ∉ mapKeys m) : mapKeys (setAmount m k v) = mapKeys m ++ [k] := by
  induction m with
  | nil => simp [setAmount, mapKeys]
  | cons h t ih =>
    simp only [mapKeys, List.map_cons, List.mem_cons, not_or] at hk
    have hne : ¬ h.1 = k := fun he => hk.1 he.symm
    simp only [setAmount]
    rw [if_neg hne]
    simp only [mapKeys, List.map_cons, List.cons_append]
    simp only [mapKeys] at ih
    rw [ih hk.2]

theorem keysNodup_setAmount {α : Type} (m : List (String × α)) (k : String)
    (v : α) (hnd : (mapKeys m).Nodup) : (mapKeys (setAmount m k v)).Nodup := by
  by_cases hk : k ∈ mapKeys m
  · rw [mapKeys_setAmount_mem m k v hk]
    exact hnd
  · rw [mapKeys_setAmount_notMem m k v hk]
    simp [List.nodup_append, hnd, hk]

/-- Lookup characterization of `_round_balance_updates` (exchange.py lines
252-268) for a duplicate-free map and distinct base/quote symbols: the base
entry is truncated toward zero to `base_precision`, the quote entry is
rounded half-even to `quote_precision`, other entries are untouched, and
entries that are (or round to) zero are dropped. -/
theorem roundBalanceUpdates_lookup (baseSymbol quoteSymbol : String)
    (pairInfo : PairInfo) (m : SMap) (hbq : baseSymbol ≠ quoteSymbol)
    (hnd : (mapKeys m).Nodup) :
    (lookupAmount (roundBalanceUpdates baseSymbol quoteSymbol pairInfo m) baseSymbol =
      match lookupAmount m baseSymbol with
      | none => none
      | some v =>
        if v = 0 then none
        else if truncateDecimal v pairInfo.basePrecision = 0 then none
        else some (truncateDecimal v pairInfo.basePrecision)) ∧
    (lookupAmount (roundBalanceUpdates baseSymbol quoteSymbol pairInfo m) quoteSymbol =
      match lookupAmount m quoteSymbol with
      | none => none
      | some v =>
        if v = 0 then none
        else if roundDecimalHalfEven v pairInfo.quotePrecision = 0 then none
        else some (roundDecimalHalfEven v pairInfo.quotePrecision)) ∧
    (∀ s, s ≠ baseSymbol → s ≠ quoteSymbol →
      lookupAmount (roundBalanceUpdates baseSymbol quoteSymbol pairInfo m) s =
        match lookupAmount m s with
        | none => none
        | some v => if v = 0 then none else some v) := by
  unfold roundBalanceUpdates
  set m₁ :=
    match lookupAmount m baseSymbol with
    | some v =>
      if v ≠ 0 then setAmount m baseSymbol (truncateDecimal v pairInfo.basePrecision)
      else m
    | none => m with hm₁
  set m₂ :=
    match lookupAmount m₁ quoteSymbol with
    | some v =>
      if v ≠ 0 then setAmount m₁ quoteSymbol (roundDecimalHalfEven v pairInfo.quotePrecision)
      else m₁
    | none => m₁ with hm₂
  have hnd₁ : (mapKeys m₁).Nodup := by
    rw [hm₁]
    cases lookupAmount m baseSymbol with
    | none => exact hnd
    | some v =>
      by_cases hv : v = 0
      · simp [hv, hnd]
      · simp only [hv, ne_eq, not_false_eq_true, if_true]
        exact keysNodup_setAmount _ _ _ hnd
  have hb₁ : lookupAmount m₁ baseSymbol =
      match lookupAmount m baseSymbol with
      | none => none
      | some v => if v ≠ 0 then some (truncateDecimal v pairInfo.basePrecision) else some v := by
    rw [hm₁]
    cases hmb : lookupAmount m baseSymbol with
    | none => simpa using hmb
    | some v =>
      by_cases hv : v = 0
      · simp [hv, hmb]
      · simp only [hv, ne_eq, not_false_eq_true, if_true]
        exact lookupAmount_setAmount_self _ _ _
  have ho₁ : ∀ t, t ≠ baseSymbol → lookupAmount m₁ t = lookupAmount m t := by
    intro t ht
    rw [hm₁]
    cases lookupAmount m baseSymbol with
    | none => rfl
    | some v =>
      by_cases hv : v = 0
      · simp [hv]
      · simp only [hv, ne_eq, not_false_eq_true, if_true]
        exact lookupAmount_setAmount_other _ _ _ _ (fun he => ht he.symm)
  have hq₁ : lookupAmount m₁ quoteSymbol = lookupAmount m quoteSymbol :=
    ho₁ quoteSymbol (fun he => hbq he.symm)
  have hnd₂ : (mapKeys m₂).Nodup := by
    rw [hm₂]
    cases lookupAmount m₁ quoteSymbol with
    | none => exact hnd₁
    | some v =>
      by_cases hv : v = 0
      · simp [hv, hnd₁]
      · simp only [hv, ne_eq, not_false_eq_true, if_true]
        exact keysNodup_setAmount _ _ _ hnd₁
  have hq₂ : lookupAmount m₂ quoteSymbol =
      match lookupAmount m quoteSymbol with
      | none => none
      | some v =>
        if v ≠ 0 then some (roundDecimalHalfEven v pairInfo.quotePrecision) else some v := by
    rw [hm₂, hq₁]
    cases hmq : lookupAmount m quoteSymbol with
    | none => simpa [hq₁] using hmq
    | some v =>
      by_cases hv : v = 0
      · simp [hv, hq₁, hmq]
      · simp only [hv, ne_eq, not_false_eq_true, if_true]
        exact lookupAmount_setAmount_self _ _ _
  have ho₂ : ∀ t, t ≠ quoteSymbol → lookupAmount m₂ t = lookupAmount m₁ t := by
    intro t ht
    rw [hm₂]
    cases lookupAmount m₁ quoteSymbol with
    | none => rfl
    | some v =>
      by_cases hv : v = 0
      · simp [hv]
      · simp only [hv, ne_eq, not_false_eq_true, if_true]
        exact lookupAmount_setAmount_other _ _ _ _ (fun he => ht he.symm)
  refine ⟨?_, ?_, ?_⟩
  · rw [show removeEmptyAmounts m₂ = m₂.filter (fun p => p.2 ≠ 0) from rfl,
      lookupAmount_filter m₂ _ baseSymbol hnd₂, ho₂ baseSymbol hbq, hb₁]
    cases hmb : lookupAmount m baseSymbol with
    | none => simp
    | some v =>
      by_cases hv : v = 0
      · simp [hv]
      · by_cases hw : truncateDecimal v pairInfo.basePrecision = 0
        · simp [hv, hw]
        · simp [hv, hw]
  · rw [show removeEmptyAmounts m₂ = m₂.filter (fun p => p.2 ≠ 0) from rfl,
      lookupAmount_filter m₂ _ quoteSymbol hnd₂, hq₂]
    cases hmq : lookupAmount m quoteSymbol with
    | none => simp
    | some v =>
      by_cases hv : v = 0
      · simp [hv]
      · by_cases hw : roundDecimalHalfEven v pairInfo.quotePrecision = 0
        · simp [hv, hw]
        · simp [hv, hw]
  · intro s hsb hsq
    rw [show removeEmptyAmounts m₂ = m₂.filter (fun p => p.2 ≠ 0) from rfl,
      lookupAmount_filter m₂ _ s hnd₂, ho₂ s hsq, ho₁ s hsb]
    cases hms : lookupAmount m s with
    | none => simp
    | some v =>
      by_cases hv : v = 0
      · simp [hv]
      · simp [hv]

theorem lookupAmount_map_entry {α β : Type} (m : List (String × α))
    (f : String × α → String × β) (g : String → α → β)
    (hf : ∀ p, f p = (p.1, g p.1 p.2)) (k : String) :
    lookupAmount (m.map f) k = (lookupAmount m k).map (g k) := by
  induction m with
  | nil => simp [lookupAmount]
  | cons h t ih =>
    by_cases hk : h.1 = k
    · subst hk
      simp [lookupAmount, hf h]
    · simp only [List.map_cons, lookupAmount, hf h, hk, if_neg]
      simpa using ih

theorem mapKeys_map_entry {α β : Type} (m : List (String × α))
    (f : String × α → String × β) (g : String → α → β)
    (hf : ∀ p, f p = (p.1, g p.1 p.2)) :
    mapKeys (m.map f) = mapKeys m := by
  induction m with
  | nil => rfl
  | cons h t ih =>
    simp only [List.map_cons, mapKeys, hf h] at ih ⊢
    rw [ih]

theorem roundDecimalUp_ne_zero (x : ℚ) (p : ℕ) (hx : x ≠ 0) :
    roundDecimalUp x p ≠ 0 := by
  unfold roundDecimalUp ratAwayInt
  have h10 : (0 : ℚ) < (10 : ℚ) ^ p := by positivity
  have hm : x * (10 : ℚ) ^ p ≠ 0 := mul_ne_zero hx (ne_of_gt h10)
  by_cases h : 0 ≤ x * (10 : ℚ) ^ p
  · have hpos : 0 < x * (10 : ℚ) ^ p := lt_of_le_of_ne h (Ne.symm hm)
    have hflt : ⌊-(x * (10 : ℚ) ^ p)⌋ < 0 := by
      have : (⌊-(x * (10 : ℚ) ^ p)⌋ : ℚ) ≤ -(x * (10 : ℚ) ^ p) := Int.floor_le _
      have hlt : (⌊-(x * (10 : ℚ) ^ p)⌋ : ℚ) < 0 := lt_of_le_of_lt this (by linarith)
      exact_mod_cast hlt
    rw [if_pos h]
    have hnum : (0 : ℚ) < ((-⌊-(x * (10 : ℚ) ^ p)⌋ : ℤ) : ℚ) := by
      have : (0 : ℤ) < -⌊-(x * (10 : ℚ) ^ p)⌋ := by omega
      exact_mod_cast this
    exact ne_of_gt (div_pos hnum h10)
  · have hneg : x * (10 : ℚ) ^ p < 0 := lt_of_not_le h
    have hflt : ⌊x * (10 : ℚ) ^ p⌋ < 0 := by
      have : (⌊x * (10 : ℚ) ^ p⌋ : ℚ) ≤ x * (10 : ℚ) ^ p := Int.floor_le _
      have hlt : (⌊x * (10 : ℚ) ^ p⌋ : ℚ) < 0 := lt_of_le_of_lt this hneg
      exact_mod_cast hlt
    rw [if_neg h]
    have hnum : ((⌊x * (10 : ℚ) ^ p⌋ : ℤ) : ℚ) < 0 := by exact_mod_cast hflt
    exact ne_of_lt (div_neg_of_neg_of_pos hnum h10)

/-- Lookup characterization of `_round_fees` (exchange.py lines 270-284)
for a duplicate-free fee map: nonzero fees in a symbol with a known
precision (base or quote) are rounded away from zero to that precision,
fees in other symbols are left unrounded, and zero entries are dropped. -/
theorem roundFees_lookup (baseSymbol quoteSymbol : String) (pairInfo : PairInfo)
    (fees : SMap) (hnd : (mapKeys fees).Nodup) (s : String) :
    lookupAmount (roundFees baseSymbol quoteSymbol pairInfo fees) s =
      match lookupAmount fees s with
      | none => none
      | some v =>
        if v = 0 then none
        else
          match feePrecisionFor baseSymbol quoteSymbol pairInfo s with
          | some precision =>
            if roundDecimalUp v precision = 0 then none
            else some (roundDecimalUp v precision)
          | none => some v := by
  have hf : ∀ p : String × ℚ,
      (match feePrecisionFor baseSymbol quoteSymbol pairInfo p.1 with
        | some precision => if p.2 ≠ 0 then (p.1, roundDecimalUp p.2 precision) else p
        | none => p) =
      (p.1, feeRoundEntry baseSymbol quoteSymbol pairInfo p.1 p.2) := by
    intro p
    cases p with
    | mk k v =>
      show _ = (k, feeRoundEntry baseSymbol quoteSymbol pairInfo k v)
      unfold feeRoundEntry
      cases feePrecisionFor baseSymbol quoteSymbol pairInfo k with
      | none => rfl
      | some precision =>
        by_cases hv : v = 0
        · simp [hv]
        · simp [hv]
  unfold roundFees
  rw [show (removeEmptyAmounts (fees.map fun p =>
      match feePrecisionFor baseSymbol quoteSymbol pairInfo p.1 with
      | some precision => if p.2 ≠ 0 then (p.1, roundDecimalUp p.2 precision) else p
      | none => p)) = ((fees.map fun p =>
      match feePrecisionFor baseSymbol quoteSymbol pairInfo p.1 with
      | some precision => if p.2 ≠ 0 then (p.1, roundDecimalUp p.2 precision) else p
      | none => p).filter fun p => p.2 ≠ 0) from rfl,
    lookupAmount_filter _ _ s
      (by rw [mapKeys_map_entry _ _ (feeRoundEntry baseSymbol quoteSymbol pairInfo) hf]
          exact hnd),
    lookupAmount_map_entry _ _ (feeRoundEntry baseSymbol quoteSymbol pairInfo) hf]
  cases hms : lookupAmount fees s with
  | none => simp
  | some v =>
    by_cases hv : v = 0
    · cases hprec : feePrecisionFor baseSymbol quoteSymbol pairInfo s with
      | none => simp [feeRoundEntry, hprec, hv]
      | some precision => simp [feeRoundEntry, hprec, hv]
    · cases hprec : feePrecisionFor baseSymbol quoteSymbol pairInfo s with
      | none => simp [feeRoundEntry, hprec, hv]
      | some precision =>
        by_cases hw : roundDecimalUp v precision = 0
        · simp [feeRoundEntry, hprec, hv, hw]
        · simp [feeRoundEntry, hprec, hv, hw]

/-- Unfolding of `_process_order` past the empty-updates check and the
sanity asserts: what remains is the rounding check, the affordability check
and the commit. -/
theorem processOrder_eq (baseSymbol quoteSymbol : String) (pairInfo : PairInfo)
    (isBuy : Bool) (m : SMap) (calcFees : SMap → SMap)
    (available holdForOrder : String → ℚ) (stillOpen : Bool)
    (hne : m ≠ [])
    (hA : assertHasValue m baseSymbol (getBaseSignForOperation isBuy) = true)
    (hB : assertHasValue m quoteSymbol (-(getBaseSignForOperation isBuy)) = true) :
    processOrder baseSymbol quoteSymbol pairInfo isBuy m calcFees available
        holdForOrder stillOpen =
      (if lookupAmount (roundBalanceUpdates baseSymbol quoteSymbol pairInfo m) baseSymbol = none ∨
          lookupAmount (roundBalanceUpdates baseSymbol quoteSymbol pairInfo m) quoteSymbol = none then
        some (notFilledEffects stillOpen)
      else
        if (removeEmptyAmounts (addAmounts
              (roundBalanceUpdates baseSymbol quoteSymbol pairInfo m)
              (roundFees baseSymbol quoteSymbol pairInfo
                (calcFees (roundBalanceUpdates baseSymbol quoteSymbol pairInfo m))))).any
            (fun p => decide (available p.1 + holdForOrder p.1 + p.2 < 0)) then
          some (notFilledEffects stillOpen)
        else
          some [
            MatchEffect.tookLiquidity
              |(lookupAmount (roundBalanceUpdates baseSymbol quoteSymbol pairInfo m)
                  baseSymbol).getD 0|,
            MatchEffect.addedFill (roundBalanceUpdates baseSymbol quoteSymbol pairInfo m)
              (roundFees baseSymbol quoteSymbol pairInfo
                (calcFees (roundBalanceUpdates baseSymbol quoteSymbol pairInfo m))),
            MatchEffect.balancesUpdated (removeEmptyAmounts (addAmounts
              (roundBalanceUpdates baseSymbol quoteSymbol pairInfo m)
              (roundFees baseSymbol quoteSymbol pairInfo
                (calcFees (roundBalanceUpdates baseSymbol quoteSymbol pairInfo m)))))]) := by
  simp only [processOrder]
  rw [if_neg hne, if_neg (not_not_intro ⟨hA, hB⟩)]

/-- C3. During matching, `_round_balance_updates` truncates the base entry
toward zero to `base_precision` and rounds the quote entry half-even to
`quote_precision`, dropping zero entries; if after rounding the base or the
quote entry is absent, `_process_order` takes the not-filled path; and
`_round_fees` rounds every nonzero fee entry in the base or quote symbol
with ROUND_UP (away from zero) to the respective precision while leaving
fee entries in any other symbol unrounded. -/
theorem C3_rounding_discipline (baseSymbol quoteSymbol : String)
    (pairInfo : PairInfo) (m feesIn : SMap) (hbq : baseSymbol ≠ quoteSymbol)
    (hnd : (mapKeys m).Nodup) (hndf : (mapKeys feesIn).Nodup) :
    (∀ v, lookupAmount m baseSymbol = some v → v ≠ 0 →
      lookupAmount (roundBalanceUpdates baseSymbol quoteSymbol pairInfo m) baseSymbol =
        (if truncateDecimal v pairInfo.basePrecision = 0 then none
         else some (truncateDecimal v pairInfo.basePrecision))) ∧
    (∀ v, lookupAmount m quoteSymbol = some v → v ≠ 0 →
      lookupAmount (roundBalanceUpdates baseSymbol quoteSymbol pairInfo m) quoteSymbol =
        (if roundDecimalHalfEven v pairInfo.quotePrecision = 0 then none
         else some (roundDecimalHalfEven v pairInfo.quotePrecision))) ∧
    (∀ s, lookupAmount (roundBalanceUpdates baseSymbol quoteSymbol pairInfo m) s ≠ some 0) ∧
    (∀ isBuy calcFees available holdForOrder stillOpen,
      m ≠ [] →
      assertHasValue m baseSymbol (getBaseSignForOperation isBuy) = true →
      assertHasValue m quoteSymbol (-(getBaseSignForOperation isBuy)) = true →
      (lookupAmount (roundBalanceUpdates baseSymbol quoteSymbol pairInfo m) baseSymbol = none ∨
       lookupAmount (roundBalanceUpdates baseSymbol quoteSymbol pairInfo m) quoteSymbol = none) →
      processOrder baseSymbol quoteSymbol pairInfo isBuy m calcFees available
        holdForOrder stillOpen = some (notFilledEffects stillOpen)) ∧
    (∀ v, lookupAmount feesIn baseSymbol = some v → v ≠ 0 →
      lookupAmount (roundFees baseSymbol quoteSymbol pairInfo feesIn) baseSymbol =
        some (roundDecimalUp v pairInfo.basePrecision)) ∧
    (∀ v, lookupAmount feesIn quoteSymbol = some v → v ≠ 0 →
      lookupAmount (roundFees baseSymbol quoteSymbol pairInfo feesIn) quoteSymbol =
        some (roundDecimalUp v pairInfo.quotePrecision)) ∧
    (∀ s v, s ≠ baseSymbol → s ≠ quoteSymbol → lookupAmount feesIn s = some v → v ≠ 0 →
      lookupAmount (roundFees baseSymbol quoteSymbol pairInfo feesIn) s = some v) := by
  obtain ⟨hbase, hquote, hother⟩ :=
    roundBalanceUpdates_lookup baseSymbol quoteSymbol pairInfo m hbq hnd
  refine ⟨?_, ?_, ?_, ?_, ?_, ?_, ?_⟩
  · intro v hl hv
    rw [hbase, hl]
    simp [hv]
  · intro v hl hv
    rw [hquote, hl]
    simp [hv]
  · intro s
    by_cases hsb : s = baseSymbol
    · subst hsb
      rw [hbase]
      cases lookupAmount m s with
      | none => simp
      | some v =>
        by_cases hv : v = 0
        · simp [hv]
        · by_cases hw : truncateDecimal v pairInfo.basePrecision = 0
          · simp [hv, hw]
          · simp [hv, hw]
    · by_cases hsq : s = quoteSymbol
      · subst hsq
        rw [hquote]
        cases lookupAmount m s with
        | none => simp
        | some v =>
          by_cases hv : v = 0
          · simp [hv]
          · by_cases hw : roundDecimalHalfEven v pairInfo.quotePrecision = 0
            · simp [hv, hw]
            · simp [hv, hw]
      · rw [hother s hsb hsq]
        cases lookupAmount m s with
        | none => simp
        | some v =>
          by_cases hv : v = 0
          · simp [hv]
          · simp [hv]
  · intro isBuy calcFees available holdForOrder stillOpen hne hA hB habs
    rw [processOrder_eq baseSymbol quoteSymbol pairInfo isBuy m calcFees available
      holdForOrder stillOpen hne hA hB, if_pos habs]
  · intro v hl hv
    rw [roundFees_lookup baseSymbol quoteSymbol pairInfo feesIn hndf baseSymbol, hl]
    have hprec : feePrecisionFor baseSymbol quoteSymbol pairInfo baseSymbol =
        some pairInfo.basePrecision := by
      simp [feePrecisionFor, hbq]
    simp [hv, hprec, roundDecimalUp_ne_zero v pairInfo.basePrecision hv]
  · intro v hl hv
    rw [roundFees_lookup baseSymbol quoteSymbol pairInfo feesIn hndf quoteSymbol, hl]
    have hprec : feePrecisionFor baseSymbol quoteSymbol pairInfo quoteSymbol =
        some pairInfo.quotePrecision := by
      simp [feePrecisionFor]
    simp [hv, hprec, roundDecimalUp_ne_zero v pairInfo.quotePrecision hv]
  · intro s v hsb hsq hl hv
    rw [roundFees_lookup baseSymbol quoteSymbol pairInfo feesIn hndf s, hl]
    have hprec : feePrecisionFor baseSymbol quoteSymbol pairInfo s = none := by
      simp [feePrecisionFor, hsb, hsq]
    simp [hv, hprec]

/-- C3 witness: the base entry of a concrete map is truncated toward zero
(5/2 with base precision 0 becomes 2), and a fee in a symbol that is
neither base nor quote is left unrounded. -/
theorem C3_rounding_discipline_witness :
    (lookupAmount (roundBalanceUpdates "BTC" "USDT" piW mW) "BTC" =
      (if truncateDecimal (5 / 2) piW.basePrecision = 0 then none
       else some (truncateDecimal (5 / 2) piW.basePrecision))) ∧
    lookupAmount (roundFees "BTC" "USDT" piW feesW) "XYZ" = some (7 / 1000) :=
  ⟨(C3_rounding_discipline "BTC" "USDT" piW mW feesW (by decide) (by decide)
      (by decide)).1 (5 / 2) (by decide) (by decide),
   (C3_rounding_discipline "BTC" "USDT" piW mW feesW (by decide) (by decide)
      (by decide)).2.2.2.2.2.2 "XYZ" (7 / 1000) (by decide) (by decide)
      (by decide) (by decide)⟩

/-- C1. For an open order processed against a bar whose raw balance updates
are nonempty, pass the sanity asserts, and survive rounding with both base
and quote entries present: if for some symbol `s` of the combined map
(rounded updates plus rounded fees) the quantity
`available[s] + hold_for_this_order[s] + final[s]` is negative, the order
takes the not-filled path and no commit happens (no liquidity is taken, no
fill is added so `amount_filled` is unchanged, and no balance-update map is
applied for the order on this bar: the only possible balance operation is
the empty-delta hold release); otherwise the commit performs exactly
`take_liquidity(|updates[base]|)`, `add_fill(updates, fees)` and
`order_updated(order, final)`, in that order. -/
theorem C1_affordability_check (baseSymbol quoteSymbol : String) (pairInfo : PairInfo)
    (isBuy : Bool) (m : SMap) (calcFees : SMap → SMap)
    (available holdForOrder : String → ℚ) (stillOpen : Bool)
    (hne : m ≠ [])
    (hA : assertHasValue m baseSymbol (getBaseSignForOperation isBuy) = true)
    (hB : assertHasValue m quoteSymbol (-(getBaseSignForOperation isBuy)) = true)
    (vb vq : ℚ)
    (hbase : lookupAmount (roundBalanceUpdates baseSymbol quoteSymbol pairInfo m)
      baseSymbol = some vb)
    (hquote : lookupAmount (roundBalanceUpdates baseSymbol quoteSymbol pairInfo m)
      quoteSymbol = some vq) :
    ((∃ p ∈ removeEmptyAmounts (addAmounts
        (roundBalanceUpdates baseSymbol quoteSymbol pairInfo m)
        (roundFees baseSymbol quoteSymbol pairInfo
          (calcFees (roundBalanceUpdates baseSymbol quoteSymbol pairInfo m)))),
        available p.1 + holdForOrder p.1 + p.2 < 0) →
      processOrder baseSymbol quoteSymbol pairInfo isBuy m calcFees available
          holdForOrder stillOpen = some (notFilledEffects stillOpen) ∧
      ∀ e ∈ notFilledEffects stillOpen,
        (∀ a, e ≠ MatchEffect.tookLiquidity a) ∧
        (∀ u f, e ≠ MatchEffect.addedFill u f) ∧
        (∀ u, e ≠ MatchEffect.balancesUpdated u)) ∧
    ((∀ p ∈ removeEmptyAmounts (addAmounts
        (roundBalanceUpdates baseSymbol quoteSymbol pairInfo m)
        (roundFees baseSymbol quoteSymbol pairInfo
          (calcFees (roundBalanceUpdates baseSymbol quoteSymbol pairInfo m)))),
        0 ≤ available p.1 + holdForOrder p.1 + p.2) →
      processOrder baseSymbol quoteSymbol pairInfo isBuy m calcFees available
          holdForOrder stillOpen =
        some [
          MatchEffect.tookLiquidity |vb|,
          MatchEffect.addedFill (roundBalanceUpdates baseSymbol quoteSymbol pairInfo m)
            (roundFees baseSymbol quoteSymbol pairInfo
              (calcFees (roundBalanceUpdates baseSymbol quoteSymbol pairInfo m))),
          MatchEffect.balancesUpdated (removeEmptyAmounts (addAmounts
            (roundBalanceUpdates baseSymbol quoteSymbol pairInfo m)
            (roundFees baseSymbol quoteSymbol pairInfo
              (calcFees (roundBalanceUpdates baseSymbol quoteSymbol pairInfo m)))))]) := by
  have heq := processOrder_eq baseSymbol quoteSymbol pairInfo isBuy m calcFees
    available holdForOrder stillOpen hne hA hB
  have habs : ¬ (lookupAmount (roundBalanceUpdates baseSymbol quoteSymbol pairInfo m)
      baseSymbol = none ∨
      lookupAmount (roundBalanceUpdates baseSymbol quoteSymbol pairInfo m)
      quoteSymbol = none) := by
    simp [hbase, hquote]
  constructor
  · intro hshort
    have hany : (removeEmptyAmounts (addAmounts
        (roundBalanceUpdates baseSymbol quoteSymbol pairInfo m)
        (roundFees baseSymbol quoteSymbol pairInfo
          (calcFees (roundBalanceUpdates baseSymbol quoteSymbol pairInfo m))))).any
        (fun p => decide (available p.1 + holdForOrder p.1 + p.2 < 0)) = true := by
      rw [List.any_eq_true]
      obtain ⟨p, hp, hlt⟩ := hshort
      exact ⟨p, hp, by simpa using hlt⟩
    refine ⟨?_, ?_⟩
    · rw [heq, if_neg habs, if_pos hany]
    · intro e he
      have he2 : e = MatchEffect.orderNotFilled ∨ e = MatchEffect.holdReleased := by
        cases stillOpen with
        | true =>
          have h1 : e = MatchEffect.orderNotFilled := by
            simpa [notFilledEffects] using he
          exact Or.inl h1
        | false => simpa [notFilledEffects] using he
      rcases he2 with rfl | rfl <;> exact ⟨by simp, by simp, by simp⟩
  · intro hsafe
    have hany : (removeEmptyAmounts (addAmounts
        (roundBalanceUpdates baseSymbol quoteSymbol pairInfo m)
        (roundFees baseSymbol quoteSymbol pairInfo
          (calcFees (roundBalanceUpdates baseSymbol quoteSymbol pairInfo m))))).any
        (fun p => decide (available p.1 + holdForOrder p.1 + p.2 < 0)) = false := by
      rw [List.any_eq_false]
      intro p hp
      simpa using not_lt.mpr (hsafe p hp)
    rw [heq, if_neg habs, if_neg (by simp [hany]), hbase]
    simp

/-- C1 witness: a concrete BUY for 1 BTC at −100 USDT of quote flow. With
50 USDT available the affordability check fails and the order takes the
not-filled path; with 1000 USDT available the commit takes liquidity for
|1| base unit, adds the fill and applies the final updates, in that
order. -/
theorem C1_affordability_check_witness :
    processOrder "BTC" "USDT" piW true mC1 (fun _ => []) availShortC1 holdZero false =
      some (notFilledEffects false) ∧
    processOrder "BTC" "USDT" piW true mC1 (fun _ => []) availC1 holdZero false =
      some [
        MatchEffect.tookLiquidity |(1 : ℚ)|,
        MatchEffect.addedFill (roundBalanceUpdates "BTC" "USDT" piW mC1)
          (roundFees "BTC" "USDT" piW
            ((fun _ => ([] : SMap)) (roundBalanceUpdates "BTC" "USDT" piW mC1))),
        MatchEffect.balancesUpdated (removeEmptyAmounts (addAmounts
          (roundBalanceUpdates "BTC" "USDT" piW mC1)
          (roundFees "BTC" "USDT" piW
            ((fun _ => ([] : SMap)) (roundBalanceUpdates "BTC" "USDT" piW mC1)))))] :=
  ⟨((C1_affordability_check "BTC" "USDT" piW true mC1 (fun _ => []) availShortC1
      holdZero false (by decide) (by decide) (by decide) 1 (-100) (by decide)
      (by decide)).1 (by decide)).1,
   (C1_affordability_check "BTC" "USDT" piW true mC1 (fun _ => []) availC1
      holdZero false (by decide) (by decide) (by decide) 1 (-100) (by decide)
      (by decide)).2 (by decide)⟩

theorem lookupAmount_isSome_iff {α : Type} (m : List (String × α)) (k : String) :
    (lookupAmount m k).isSome = true ↔ k ∈ mapKeys m := by
  induction m with
  | nil => simp [lookupAmount, mapKeys]
  | cons h t ih =>
    by_cases hk : h.1 = k
    · subst hk
      simp [lookupAmount, mapKeys]
    · have hstep : lookupAmount (h :: t) k = lookupAmount t k := by
        simp [lookupAmount, hk]
      rw [hstep, ih]
      simp only [mapKeys, List.map_cons, List.mem_cons]
      constructor
      · exact fun hm => Or.inr hm
      · rintro (he | hm)
        · exact absurd he.symm hk
        · exact hm

theorem mapKeys_filter_sublist {α : Type} (m : List (String × α))
    (q : String × α → Bool) : (mapKeys (m.filter q)).Sublist (mapKeys m) :=
  List.Sublist.map Prod.fst (List.filter_sublist m)

theorem mapKeys_roundBalanceUpdates_sublist (baseSymbol quoteSymbol : String)
    (pairInfo : PairInfo) (m : SMap) :
    (mapKeys (roundBalanceUpdates baseSymbol quoteSymbol pairInfo m)).Sublist
      (mapKeys m) := by
  have step : ∀ (mm : SMap) (k : String) (f : ℚ → ℚ),
      mapKeys (match lookupAmount mm k with
        | some v => if v ≠ 0 then setAmount mm k (f v) else mm
        | none => mm) = mapKeys mm := by
    intro mm k f
    cases hk : lookupAmount mm k with
    | none => rfl
    | some v =>
      by_cases hv : v = 0
      · simp [hv]
      · simp only [hv, ne_eq, not_false_eq_true, if_true]
        exact mapKeys_setAmount_mem mm k (f v)
          ((lookupAmount_isSome_iff mm k).mp (by simp [hk]))
  unfold roundBalanceUpdates
  refine List.Sublist.trans (mapKeys_filter_sublist _ _) ?_
  rw [step, step]

theorem roundFees_entry_eq (baseSymbol quoteSymbol : String) (pairInfo : PairInfo) :
    ∀ p : String × ℚ,
      (match feePrecisionFor baseSymbol quoteSymbol pairInfo p.1 with
        | some precision => if p.2 ≠ 0 then (p.1, roundDecimalUp p.2 precision) else p
        | none => p) =
      (p.1, feeRoundEntry baseSymbol quoteSymbol pairInfo p.1 p.2) := by
  intro p
  cases p with
  | mk k v =>
    show _ = (k, feeRoundEntry baseSymbol quoteSymbol pairInfo k v)
    unfold feeRoundEntry
    cases feePrecisionFor baseSymbol quoteSymbol pairInfo k with
    | none => rfl
    | some precision =>
      by_cases hv : v = 0
      · simp [hv]
      · simp [hv]

theorem mapKeys_roundFees_sublist (baseSymbol quoteSymbol : String)
    (pairInfo : PairInfo) (fees : SMap) :
    (mapKeys (roundFees baseSymbol quoteSymbol pairInfo fees)).Sublist
      (mapKeys fees) := by
  unfold roundFees
  refine List.Sublist.trans (mapKeys_filter_sublist _ _) ?_
  rw [mapKeys_map_entry _ _ (feeRoundEntry baseSymbol quoteSymbol pairInfo)
    (roundFees_entry_eq baseSymbol quoteSymbol pairInfo)]

theorem keysNodup_addAmounts (m₁ m₂ : SMap) (h₁ : (mapKeys m₁).Nodup)
    (h₂ : (mapKeys m₂).Nodup) : (mapKeys (addAmounts m₁ m₂)).Nodup := by
  unfold addAmounts
  rw [show mapKeys (m₁.map (fun p => (p.1, p.2 + ((lookupAmount m₂ p.1).getD 0)))
      ++ m₂.filter (fun p => (lookupAmount m₁ p.1).isNone)) =
    mapKeys (m₁.map (fun p => (p.1, p.2 + ((lookupAmount m₂ p.1).getD 0)))) ++
    mapKeys (m₂.filter (fun p => (lookupAmount m₁ p.1).isNone)) from
      List.map_append _ _ _]
  rw [List.nodup_append]
  refine ⟨?_, ?_, ?_⟩
  · rw [mapKeys_map_entry _ _ (fun k v => v + ((lookupAmount m₂ k).getD 0))
      (fun p => rfl)]
    exact h₁
  · exact List.Nodup.sublist (mapKeys_filter_sublist _ _) h₂
  · intro k hk1 hk2
    rw [mapKeys_map_entry _ _ (fun k v => v + ((lookupAmount m₂ k).getD 0))
      (fun p => rfl)] at hk1
    simp only [mapKeys, List.mem_map] at hk2
    obtain ⟨p, hpmem, hpk⟩ := hk2
    have hnone := (List.mem_filter.mp hpmem).2
    simp only [Option.isNone_iff_eq_none] at hnone
    rw [lookupAmount_eq_none_iff] at hnone
    exact hnone (hpk ▸ hk1)

theorem lookupAmount_required (m : SMap) (hnd : (mapKeys m).Nodup)
    (s : String) (v : ℚ) :
    lookupAmount ((m.filter (fun p => p.2 < 0)).map (fun p => (p.1, -p.2))) s =
      some v ↔ ∃ w, lookupAmount m s = some w ∧ w < 0 ∧ v = -w := by
  rw [lookupAmount_map_entry _ (fun p => (p.1, -p.2)) (fun _ w => -w)
    (fun p => rfl) s, lookupAmount_filter _ _ s hnd, Option.map_eq_some']
  cases hms : lookupAmount m s with
  | none => simp
  | some w =>
    by_cases hw : w < 0
    · simp [hw, eq_comm]
    · simp [hw]

theorem rawEstimatedUpdates_cases (baseSymbol quoteSymbol : String)
    (request : OrderRequest) (lastPrice : Option ℚ) (hbq : baseSymbol ≠ quoteSymbol) :
    (rawEstimatedUpdates baseSymbol quoteSymbol request lastPrice =
        [(baseSymbol, request.amount * getBaseSignForOperation request.isBuyOp)] ∧
      (estimatedFillPriceWithFallback request lastPrice = none ∨
       estimatedFillPriceWithFallback request lastPrice = some 0)) ∨
    (∃ p, estimatedFillPriceWithFallback request lastPrice = some p ∧ p ≠ 0 ∧
      rawEstimatedUpdates baseSymbol quoteSymbol request lastPrice =
        [(baseSymbol, request.amount * getBaseSignForOperation request.isBuyOp),
         (quoteSymbol, request.amount * p * (-(getBaseSignForOperation request.isBuyOp)))]) := by
  unfold rawEstimatedUpdates
  cases hp : estimatedFillPriceWithFallback request lastPrice with
  | none => exact Or.inl ⟨rfl, Or.inl rfl⟩
  | some p =>
    by_cases hpz : p = 0
    · subst hpz
      exact Or.inl ⟨by simp, Or.inr rfl⟩
    · refine Or.inr ⟨p, rfl, hpz, ?_⟩
      simp only [hpz, ne_eq, not_false_eq_true, if_true]
      simp [setAmount, hbq]

theorem length_eq_two_iff (m : SMap) (b q : String) (hbq : b ≠ q)
    (hsub : (mapKeys m).Sublist [b, q]) :
    m.length = 2 ↔
      ((lookupAmount m b).isSome = true ∧ (lookupAmount m q).isSome = true) := by
  have hlen : m.length = (mapKeys m).length := by simp [mapKeys]
  constructor
  · intro h2
    have hkeys : mapKeys m = [b, q] :=
      List.Sublist.eq_of_length hsub (by rw [← hlen, h2]; rfl)
    constructor <;> rw [lookupAmount_isSome_iff, hkeys] <;> simp
  · rintro ⟨hb, hq⟩
    rw [lookupAmount_isSome_iff] at hb hq
    have hle : (mapKeys m).length ≤ 2 := by simpa using hsub.length_le
    have hcardsub : ([b, q].toFinset : Finset String) ⊆ (mapKeys m).toFinset := by
      intro x hx
      simp only [List.toFinset_cons, List.toFinset_nil, insert_emptyc_eq,
        Finset.mem_insert, Finset.mem_singleton] at hx
      rcases hx with rfl | rfl
      · simpa [List.mem_toFinset] using hb
      · simpa [List.mem_toFinset] using hq
    have hc1 : ([b, q].toFinset : Finset String).card = 2 := by
      simp [List.toFinset_cons, hbq]
    have hc2 := Finset.card_le_card hcardsub
    have hc3 : (mapKeys m).toFinset.card ≤ (mapKeys m).length :=
      (mapKeys m).toFinset_card_le
    rw [hlen]
    omega

/-- C4. `_estimate_required_balances` (exchange.py lines 381-404): the
estimated balance updates contain the base component
`amount × sign(operation)`; when a fill price is estimable (the request's
estimated fill price, falling back to the last close, both under
truthiness) they also contain the quote component
`amount × price × −sign(operation)`, and otherwise no quote component;
after rounding, fees are computed by the fee strategy on a temporary order
with id "temporary" if and only if both components are present; and the
required balances returned are exactly the negations of the strictly
negative entries of the resulting map. -/
theorem C4_estimate_required_balances (baseSymbol quoteSymbol : String)
    (pairInfo : PairInfo) (request : OrderRequest) (lastPrice : Option ℚ)
    (calcFees : String → SMap → SMap) (hbq : baseSymbol ≠ quoteSymbol)
    (hcf : ∀ orderId updates, (mapKeys (calcFees orderId updates)).Nodup) :
    (lookupAmount (rawEstimatedUpdates baseSymbol quoteSymbol request lastPrice)
        baseSymbol =
      some (request.amount * getBaseSignForOperation request.isBuyOp)) ∧
    (∀ p, estimatedFillPriceWithFallback request lastPrice = some p → p ≠ 0 →
      lookupAmount (rawEstimatedUpdates baseSymbol quoteSymbol request lastPrice)
          quoteSymbol =
        some (request.amount * p * (-(getBaseSignForOperation request.isBuyOp)))) ∧
    ((estimatedFillPriceWithFallback request lastPrice = none ∨
      estimatedFillPriceWithFallback request lastPrice = some 0) →
      lookupAmount (rawEstimatedUpdates baseSymbol quoteSymbol request lastPrice)
        quoteSymbol = none) ∧
    (estimatedUpdatesWithFees baseSymbol quoteSymbol pairInfo request lastPrice calcFees =
      addAmounts
        (roundBalanceUpdates baseSymbol quoteSymbol pairInfo
          (rawEstimatedUpdates baseSymbol quoteSymbol request lastPrice))
        (if (lookupAmount (roundBalanceUpdates baseSymbol quoteSymbol pairInfo
              (rawEstimatedUpdates baseSymbol quoteSymbol request lastPrice))
              baseSymbol).isSome = true ∧
            (lookupAmount (roundBalanceUpdates baseSymbol quoteSymbol pairInfo
              (rawEstimatedUpdates baseSymbol quoteSymbol request lastPrice))
              quoteSymbol).isSome = true then
          roundFees baseSymbol quoteSymbol pairInfo (calcFees "temporary"
            (roundBalanceUpdates baseSymbol quoteSymbol pairInfo
              (rawEstimatedUpdates baseSymbol quoteSymbol request lastPrice)))
        else [])) ∧
    (∀ s v, lookupAmount (estimateRequiredBalances baseSymbol quoteSymbol pairInfo
        request lastPrice calcFees) s = some v ↔
      ∃ w, lookupAmount (estimatedUpdatesWithFees baseSymbol quoteSymbol pairInfo
          request lastPrice calcFees) s = some w ∧ w < 0 ∧ v = -w) := by
  have hcases := rawEstimatedUpdates_cases baseSymbol quoteSymbol request lastPrice hbq
  have hrawsub : (mapKeys (rawEstimatedUpdates baseSymbol quoteSymbol request
      lastPrice)).Sublist [baseSymbol, quoteSymbol] := by
    rcases hcases with ⟨heq, _⟩ | ⟨p, hp, hpz, heq⟩ <;> rw [heq]
    · exact List.Sublist.cons₂ _ (List.nil_sublist _)
    · exact List.Sublist.refl _
  have hpairnd : ([baseSymbol, quoteSymbol] : List String).Nodup := by simp [hbq]
  have hu₂sub : (mapKeys (roundBalanceUpdates baseSymbol quoteSymbol pairInfo
      (rawEstimatedUpdates baseSymbol quoteSymbol request lastPrice))).Sublist
      [baseSymbol, quoteSymbol] :=
    List.Sublist.trans (mapKeys_roundBalanceUpdates_sublist _ _ _ _) hrawsub
  have hu₂nd : (mapKeys (roundBalanceUpdates baseSymbol quoteSymbol pairInfo
      (rawEstimatedUpdates baseSymbol quoteSymbol request lastPrice))).Nodup :=
    List.Nodup.sublist hu₂sub hpairnd
  refine ⟨?_, ?_, ?_, ?_, ?_⟩
  · rcases hcases with ⟨heq, _⟩ | ⟨p, hp, hpz, heq⟩ <;> rw [heq] <;>
      simp [lookupAmount]
  · intro p hp hpz
    rcases hcases with ⟨heq, hfalsy⟩ | ⟨p₂, hp₂, hpz₂, heq⟩
    · rcases hfalsy with hn | hz
      · rw [hp] at hn
        cases hn
      · rw [hp] at hz
        injection hz with h
        exact absurd h hpz
    · rw [hp] at hp₂
      injection hp₂ with h
      subst h
      rw [heq]
      simp [lookupAmount, hbq]
  · intro hfalsy
    rcases hcases with ⟨heq, _⟩ | ⟨p, hp, hpz, heq⟩
    · rw [heq]
      simp [lookupAmount, hbq]
    · rcases hfalsy with hn | hz
      · rw [hp] at hn
        cases hn
      · rw [hp] at hz
        injection hz with h
        exact absurd h hpz
  · have hlen := length_eq_two_iff
      (roundBalanceUpdates baseSymbol quoteSymbol pairInfo
        (rawEstimatedUpdates baseSymbol quoteSymbol request lastPrice))
      baseSymbol quoteSymbol hbq hu₂sub
    simp only [estimatedUpdatesWithFees]
    by_cases h2 : (roundBalanceUpdates baseSymbol quoteSymbol pairInfo
        (rawEstimatedUpdates baseSymbol quoteSymbol request lastPrice)).length = 2
    · rw [if_pos h2, if_pos (hlen.mp h2)]
    · rw [if_neg h2, if_neg (fun hc => h2 (hlen.mpr hc))]
  · have hfeend : (mapKeys (if (roundBalanceUpdates baseSymbol quoteSymbol pairInfo
        (rawEstimatedUpdates baseSymbol quoteSymbol request lastPrice)).length = 2 then
          roundFees baseSymbol quoteSymbol pairInfo (calcFees "temporary"
            (roundBalanceUpdates baseSymbol quoteSymbol pairInfo
              (rawEstimatedUpdates baseSymbol quoteSymbol request lastPrice)))
        else [])).Nodup := by
      by_cases hif : (roundBalanceUpdates baseSymbol quoteSymbol pairInfo
          (rawEstimatedUpdates baseSymbol quoteSymbol request lastPrice)).length = 2
      · rw [if_pos hif]
        exact List.Nodup.sublist (mapKeys_roundFees_sublist _ _ _ _) (hcf _ _)
      · rw [if_neg hif]
        simp [mapKeys]
    have hwfnd : (mapKeys (estimatedUpdatesWithFees baseSymbol quoteSymbol pairInfo
        request lastPrice calcFees)).Nodup := by
      simp only [estimatedUpdatesWithFees]
      exact keysNodup_addAmounts _ _ hu₂nd hfeend
    intro s v
    exact lookupAmount_required _ hwfnd s v

/-- C4 witness: a limit BUY for 2 at price 50 against no last bar. The raw
estimated updates contain the base component 2 × 1 and the quote component
2 × 50 × −1. -/
theorem C4_estimate_required_balances_witness :
    lookupAmount (rawEstimatedUpdates "BTC" "USDT" (.limit true 2 50) none) "BTC" =
      some ((OrderRequest.limit true 2 50).amount *
        getBaseSignForOperation (OrderRequest.limit true 2 50).isBuyOp) ∧
    lookupAmount (rawEstimatedUpdates "BTC" "USDT" (.limit true 2 50) none) "USDT" =
      some ((OrderRequest.limit true 2 50).amount * 50 *
        (-(getBaseSignForOperation (OrderRequest.limit true 2 50).isBuyOp))) :=
  ⟨(C4_estimate_required_balances "BTC" "USDT" piW (.limit true 2 50) none
      noFeeStrategy (by decide) (fun _ _ => List.Pairwise.nil)).1,
   (C4_estimate_required_balances "BTC" "USDT" piW (.limit true 2 50) none
      noFeeStrategy (by decide) (fun _ _ => List.Pairwise.nil)).2.1 50
      (by decide) (by decide)⟩

theorem genLoop_yields_sublist
    (process : String → (String → Bool) → (String → Bool)) (os : List String) :
    ∀ (store : String → Bool) (acc : Option (List String)),
      (genLoop process os store acc).1.Sublist os := by
  induction os with
  | nil => intro store acc; simp [genLoop]
  | cons o rest ih =>
    intro store acc
    by_cases ho : store o = true
    · simp only [genLoop, ho, if_true]
      exact List.Sublist.cons₂ _ (ih _ _)
    · simp only [genLoop, ho, Bool.false_eq_true, if_false]
      exact List.Sublist.cons _ (ih _ _)

theorem genLoop_yieldSpec_some
    (process : String → (String → Bool) → (String → Bool)) (os : List String) :
    ∀ (store : String → Bool) (acc : List String),
      ∃ ks, YieldSpec process os store (genLoop process os store (some acc)).1 ks ∧
        (genLoop process os store (some acc)).2.1 = some (acc ++ ks) := by
  induction os with
  | nil =>
    intro store acc
    exact ⟨[], YieldSpec.nil store, by simp [genLoop]⟩
  | cons o rest ih =>
    intro store acc
    by_cases ho : store o = true
    · by_cases hst : process o store o = true
      · obtain ⟨ks, hspec, hacc⟩ := ih (process o store) (acc ++ [o])
        refine ⟨o :: ks, ?_, ?_⟩
        · simp only [genLoop, ho, if_true, hst]
          exact YieldSpec.yieldKeep o rest store _ ks ho hst hspec
        · simp only [genLoop, ho, if_true, hst]
          rw [hacc, List.append_assoc]
          rfl
      · have hst2 : process o store o = false := by
          cases hval : process o store o
          · rfl
          · exact absurd hval hst
        obtain ⟨ks, hspec, hacc⟩ := ih (process o store) acc
        refine ⟨ks, ?_, ?_⟩
        · simp only [genLoop, ho, if_true, hst2, Bool.false_eq_true, if_false]
          exact YieldSpec.yieldDrop o rest store _ ks ho hst2 hspec
        · simp only [genLoop, ho, if_true, hst2, Bool.false_eq_true, if_false]
          exact hacc
    · have ho2 : store o = false := by
        cases hval : store o
        · rfl
        · exact absurd hval ho
      obtain ⟨ks, hspec, hacc⟩ := ih store acc
      refine ⟨ks, ?_, ?_⟩
      · simp only [genLoop, ho2, Bool.false_eq_true, if_false]
        exact YieldSpec.skip o rest store _ ks ho2 hspec
      · simp only [genLoop, ho2, Bool.false_eq_true, if_false]
        exact hacc

theorem genLoop_yieldSpec_none
    (process : String → (String → Bool) → (String → Bool)) (os : List String) :
    ∀ store : String → Bool,
      ∃ ks, YieldSpec process os store (genLoop process os store none).1 ks ∧
        (genLoop process os store none).2.1 = none := by
  induction os with
  | nil =>
    intro store
    exact ⟨[], YieldSpec.nil store, by simp [genLoop]⟩
  | cons o rest ih =>
    intro store
    by_cases ho : store o = true
    · obtain ⟨ks, hspec, hacc⟩ := ih (process o store)
      by_cases hst : process o store o = true
      · refine ⟨o :: ks, ?_, ?_⟩
        · simp only [genLoop, ho, if_true]
          exact YieldSpec.yieldKeep o rest store _ ks ho hst hspec
        · simp only [genLoop, ho, if_true]
          exact hacc
      · have hst2 : process o store o = false := by
          cases hval : process o store o
          · rfl
          · exact absurd hval hst
        refine ⟨ks, ?_, ?_⟩
        · simp only [genLoop, ho, if_true]
          exact YieldSpec.yieldDrop o rest store _ ks ho hst2 hspec
        · simp only [genLoop, ho, if_true]
          exact hacc
    · have ho2 : store o = false := by
        cases hval : store o
        · rfl
        · exact absurd hval ho
      obtain ⟨ks, hspec, hacc⟩ := ih store
      refine ⟨ks, ?_, ?_⟩
      · simp only [genLoop, ho2, Bool.false_eq_true, if_false]
        exact YieldSpec.skip o rest store _ ks ho2 hspec
      · simp only [genLoop, ho2, Bool.false_eq_true, if_false]
        exact hacc

/-- C9. One iteration of `OrderIndex.get_open_orders` (exchange.py lines
69-82): the yielded ids are a sublist of the open-order list (insertion
order, and, given the no-duplicates invariant of the list, each order is
yielded at most once); the yields and the rebuilt list satisfy `YieldSpec`
(every yielded order was open in the evolving store at the moment it was
yielded, closed orders are skipped, and the kept list contains exactly the
yielded orders still open immediately after their own processing, dropping
the ones that closed during the iteration); the open-order list is replaced
by the kept list exactly on every 50th iteration and retained unchanged
otherwise. -/
theorem C9_open_orders_iteration (idx : OrderIndexState) (store : String → Bool)
    (process : String → (String → Bool) → (String → Bool)) :
    (runGetOpenOrders idx store process).2.2.Sublist idx.openOrders ∧
    (idx.openOrders.Nodup → (runGetOpenOrders idx store process).2.2.Nodup) ∧
    (∃ ks : List String,
      YieldSpec process idx.openOrders store
        (runGetOpenOrders idx store process).2.2 ks ∧
      (runGetOpenOrders idx store process).1.openOrders =
        (if (idx.reindexCounter + 1) % 50 = 0 then ks else idx.openOrders)) ∧
    (runGetOpenOrders idx store process).1.reindexCounter =
      idx.reindexCounter + 1 := by
  have hsub : (runGetOpenOrders idx store process).2.2.Sublist idx.openOrders := by
    simp only [runGetOpenOrders]
    exact genLoop_yields_sublist process idx.openOrders store _
  refine ⟨hsub, fun hnd => List.Nodup.sublist hsub hnd, ?_, by simp [runGetOpenOrders]⟩
  by_cases hmod : (idx.reindexCounter + 1) % 50 = 0
  · obtain ⟨ks, hspec, hacc⟩ := genLoop_yieldSpec_some process idx.openOrders store []
    refine ⟨ks, ?_, ?_⟩
    · simp only [runGetOpenOrders, hmod, if_pos]
      exact hspec
    · simp only [runGetOpenOrders, hmod, if_pos]
      rw [hacc]
      simp
  · obtain ⟨ks, hspec, hacc⟩ := genLoop_yieldSpec_none process idx.openOrders store
    refine ⟨ks, ?_, ?_⟩
    · simp only [runGetOpenOrders, hmod, Bool.false_eq_true, if_false]
      exact hspec
    · simp only [runGetOpenOrders, hmod, Bool.false_eq_true, if_false]
      rw [hacc]

/-- C9 witness: three orders with "b" closed at the start and "a" closed by
its own processing, on a non-rebuild iteration. The yields are a
duplicate-free sublist of the open-order list. -/
theorem C9_open_orders_iteration_witness :
    (runGetOpenOrders idxW storeW processW).2.2.Sublist idxW.openOrders ∧
    (runGetOpenOrders idxW storeW processW).2.2.Nodup :=
  ⟨(C9_open_orders_iteration idxW storeW processW).1,
   (C9_open_orders_iteration idxW storeW processW).2.1 (by decide)⟩

/-- C5. `_on_bar_event` (exchange.py lines 358-366): the ordered step trace
of one bar event starts with the last-bar cache update for the bar's pair;
then the matching loop (`_process_orders`: liquidity `on_bar`, then one
step per yielded open order of that pair) runs to completion; and only
after all of it, and only when a per-pair subscriber event source exists,
is the bar event forwarded. The final state's pushed event list and its
order index/store are the post-matching ones, so a strategy reacting to
the forwarded bar observes post-matching order states and never observes a
bar before its matching finished. -/
theorem C5_on_bar_event_ordering (st : OnBarState) (pairKey : String) (b : Bar)
    (pairOf : String → String)
    (process : String → (String → Bool) → (String → Bool)) :
    ∃ matchSteps : List BarStep, ∃ inst : ℕ,
      (onBarEvent st pairKey b pairOf process).2 =
        BarStep.lastBarUpdated pairKey :: BarStep.liquidityOnBar pairKey inst ::
          matchSteps ++
          (if st.subscribedPairs.contains pairKey then
            [BarStep.eventForwarded pairKey] else []) ∧
      (∀ e ∈ matchSteps, ∃ orderId, e = BarStep.orderProcessed orderId ∧
        pairOf orderId = pairKey) ∧
      (onBarEvent st pairKey b pairOf process).1.lastBars =
        setAmount st.lastBars pairKey b ∧
      (onBarEvent st pairKey b pairOf process).1.pushedEvents =
        st.pushedEvents ++
          (if st.subscribedPairs.contains pairKey then [(pairKey, b)] else []) ∧
      (onBarEvent st pairKey b pairOf process).1.index =
        (runGetOpenOrders st.index st.store
          (fun o s => if pairOf o = pairKey then process o s else s)).1 ∧
      (onBarEvent st pairKey b pairOf process).1.store =
        (runGetOpenOrders st.index st.store
          (fun o s => if pairOf o = pairKey then process o s else s)).2.1 := by
  refine ⟨((runGetOpenOrders st.index st.store
      (fun o s => if pairOf o = pairKey then process o s else s)).2.2.filter
        (fun o => pairOf o = pairKey)).map BarStep.orderProcessed,
    (acquireLiquidityStrategy st.liquidity pairKey).2, ?_, ?_, ?_, ?_, ?_, ?_⟩
  · by_cases hfw : pairKey ∈ st.subscribedPairs
    · simp [onBarEvent, processOrdersTrace, hfw]
    · simp [onBarEvent, processOrdersTrace, hfw]
  · intro e he
    rcases List.mem_map.mp he with ⟨orderId, hoid, rfl⟩
    refine ⟨orderId, rfl, ?_⟩
    have hmem := (List.mem_filter.mp hoid).2
    simpa using hmem
  · by_cases hfw : pairKey ∈ st.subscribedPairs
    · simp [onBarEvent, processOrdersTrace, hfw]
    · simp [onBarEvent, processOrdersTrace, hfw]
  · by_cases hfw : pairKey ∈ st.subscribedPairs
    · simp [onBarEvent, processOrdersTrace, hfw]
    · simp [onBarEvent, processOrdersTrace, hfw]
  · by_cases hfw : pairKey ∈ st.subscribedPairs
    · simp [onBarEvent, processOrdersTrace, hfw]
    · simp [onBarEvent, processOrdersTrace, hfw]
  · by_cases hfw : pairKey ∈ st.subscribedPairs
    · simp [onBarEvent, processOrdersTrace, hfw]
    · simp [onBarEvent, processOrdersTrace, hfw]

end Theorems

end Basana
